import Mathlib

/-!
The `jwtassertion` middleware: claims extraction and scope predicates.

A shallow embedding of `agent-manager-service/middleware/jwtassertion/auth.go`.

* A Go `string` is a sequence of bytes, here a `List Nat` (`GoString`); string literals of the
  source are written `lit "..."`, their UTF-8 bytes.
* A Go `error` is represented by the text of its `Error()` method, so a function returning
  `(T, error)` becomes a function into `Except GoString T`.
* The functions of the Go standard library that the file calls (`strings.Split`,
  `strings.Replace`, `strings.Contains`, `strings.Repeat`, `base64.URLEncoding.DecodeString`,
  `context.WithValue`, `Context.Value`, `http.Header.Get`) are embedded with their documented
  behaviour, under their Go names.
* `json.Unmarshal` into `TokenClaims` and `textproto.CanonicalMIMEHeaderKey` are parameters of
  the definitions that call them.
* `strings.TrimPrefix` and `uuid.ParseBytes` are not called by the file itself: the first is the
  removal of a prefix that a comment of the file speaks of, the second is what `json.Unmarshal`
  calls on the text of `sub`, the field of type `uuid.UUID`.
-/

namespace jwtassertion

/-- A Go `string`: a sequence of bytes, each a natural number below 256. -/
abbrev GoString := List Nat

/-- UTF-8 encoding of one Unicode scalar value. -/
def utf8 (c : Nat) : List Nat :=
  if c < 0x80 then [c]
  else if c < 0x800 then [0xC0 + c / 64, 0x80 + c % 64]
  else if c < 0x10000 then [0xE0 + c / 4096, 0x80 + c / 64 % 64, 0x80 + c % 64]
  else [0xF0 + c / 262144, 0x80 + c / 4096 % 64, 0x80 + c / 64 % 64, 0x80 + c % 64]

/-- The bytes of a Go string literal (Go source text is UTF-8). -/
def lit (s : String) : GoString :=
  s.toList.flatMap (fun c => utf8 c.toNat)

/-! ## Package `strings` -/

namespace strings

/-- Go `strings.HasPrefix(s, prefix)`. -/
def HasPrefix (s pre : GoString) : Bool :=
  pre.isPrefixOf s

/-- Go `strings.Index(s, substr)`: the index of the first instance of `substr` in `s`;
`none` stands for the result `-1`. -/
def Index : GoString → GoString → Option Nat
  | [], substr => if HasPrefix [] substr then some 0 else none
  | c :: s, substr =>
    if HasPrefix (c :: s) substr then some 0
    else (Index s substr).map (· + 1)

/-- Go `strings.Contains(s, substr)`, which is `Index(s, substr) >= 0`. -/
def Contains (s substr : GoString) : Bool :=
  (Index s substr).isSome

/-- Go `strings.Repeat(s, count)` for `count >= 0`. -/
def Repeat (s : GoString) : Nat → GoString
  | 0 => []
  | n + 1 => s ++ Repeat s n

/-- Go `strings.Count(s, substr)` for a non-empty `substr`: the number of non-overlapping
instances, found from the left. `skip` is the number of bytes of `s` still inside the
instance found last. -/
def countFrom (substr : GoString) : Nat → GoString → Nat
  | _, [] => 0
  | skip + 1, _ :: s => countFrom substr skip s
  | 0, c :: s =>
    if HasPrefix (c :: s) substr then countFrom substr (substr.length - 1) s + 1
    else countFrom substr 0 s

/-- Go `strings.Count(s, substr)` for a non-empty `substr`. -/
def Count (s substr : GoString) : Nat :=
  countFrom substr 0 s

/-- The loop of Go `strings.Split` (`genSplit`) for a non-empty separator: `cur` is the segment
being read, `skip` the number of bytes of `s` still inside the separator found last. -/
def splitFrom (sep : GoString) : Nat → GoString → GoString → List GoString
  | _, cur, [] => [cur]
  | skip + 1, cur, _ :: s => splitFrom sep skip cur s
  | 0, cur, c :: s =>
    if HasPrefix (c :: s) sep then cur :: splitFrom sep (sep.length - 1) [] s
    else splitFrom sep 0 (cur ++ [c]) s

/-- Go `strings.Split(s, sep)` for a non-empty `sep`: the substrings of `s` between the
instances of `sep`; a string without `sep` (the empty string too) gives the one-element slice
`[s]`. -/
def Split (s sep : GoString) : List GoString :=
  splitFrom sep 0 [] s

/-- The loop of Go `strings.Replace` for a non-empty `old`: `n` is the number of replacements
still allowed, `skip` the number of bytes of `s` still inside the instance replaced last. -/
def replaceFrom (old new : GoString) : Nat → Nat → GoString → GoString
  | _, _, [] => []
  | n, skip + 1, _ :: s => replaceFrom old new n skip s
  | 0, 0, c :: s => c :: s
  | n + 1, 0, c :: s =>
    if HasPrefix (c :: s) old then new ++ replaceFrom old new n (old.length - 1) s
    else c :: replaceFrom old new (n + 1) 0 s

/-- Go `strings.Replace(s, old, new, n)` for a non-empty `old`: the first `n` non-overlapping
instances of `old` replaced by `new`; a negative `n` puts no limit on the number of
replacements. -/
def Replace (s old new : GoString) (n : Int) : GoString :=
  if old = new ∨ n = 0 then s
  else if n < 0 then replaceFrom old new (Count s old) 0 s
  else replaceFrom old new (min n.toNat (Count s old)) 0 s

/-- Go `strings.ReplaceAll(s, old, new)`, which is `Replace(s, old, new, -1)`. -/
def ReplaceAll (s old new : GoString) : GoString :=
  Replace s old new (-1)

/-- Go `strings.TrimPrefix(s, prefix)`: `s` without the leading `prefix`, and `s` itself when
it does not start with `prefix`. The source does not call it; it is the removal of a prefix
that the comment above the `strings.Replace` call of `JWTAuthMiddleware` speaks of. -/
def TrimPrefix (s pre : GoString) : GoString :=
  if HasPrefix s pre then s.drop pre.length else s

end strings

/-- Go `strconv.Itoa` of a non-negative integer, which is what the verb `%d` prints. -/
def itoa (n : Nat) : GoString :=
  (Nat.toDigits 10 n).map Char.toNat

/-! ## Package `encoding/base64` -/

namespace base64

/-- Go `base64.Encoding`: the 64-byte alphabet and the padding character (`none` is
`NoPadding`). Decoding is never strict in this program. -/
structure Encoding where
  encode : GoString
  padChar : Option Nat

/-- The alphabet `encodeStd`. -/
def encodeStd : GoString :=
  lit "ABCDEFGHIJKLMNOPQRSTUVWXYZabcdefghijklmnopqrstuvwxyz0123456789+/"

/-- The alphabet `encodeURL`. -/
def encodeURL : GoString :=
  lit "ABCDEFGHIJKLMNOPQRSTUVWXYZabcdefghijklmnopqrstuvwxyz0123456789-_"

/-- The padding character `StdPadding`, `'='`. -/
def StdPadding : Nat := 61

/-- Go `base64.StdEncoding`. -/
def StdEncoding : Encoding := ⟨encodeStd, some StdPadding⟩

/-- Go `base64.URLEncoding`. -/
def URLEncoding : Encoding := ⟨encodeURL, some StdPadding⟩

/-- Go `base64.RawStdEncoding`. -/
def RawStdEncoding : Encoding := ⟨encodeStd, none⟩

/-- Go `base64.RawURLEncoding`. -/
def RawURLEncoding : Encoding := ⟨encodeURL, none⟩

/-- The table `enc.decodeMap`: the 6-bit value of an alphabet byte, `0xff` for every other
byte. -/
def Encoding.decodeMap (enc : Encoding) (c : Nat) : Nat :=
  let i := enc.encode.indexOf c
  if i < 64 then i else 0xff

/-- The end of `decodeQuantum`: the 6-bit values `dbuf[0..dlen-1]` read for one quantum (the
missing ones are 0) are packed into 24 bits, of which the first `dlen - 1` bytes are written. -/
def quantumBytes (dbuf : List Nat) : List Nat :=
  let val := dbuf.getD 0 0 <<< 18 ||| dbuf.getD 1 0 <<< 12 ||| dbuf.getD 2 0 <<< 6 ||| dbuf.getD 3 0
  [val >>> 16 % 256, val >>> 8 % 256, val >>> 0 % 256].take (dbuf.length - 1)

/-- The loop `for si < len(src) && (src[si] == '\n' || src[si] == '\r') { si++ }`. -/
def skipNewlines : GoString → Nat → GoString × Nat
  | [], si => ([], si)
  | c :: src, si => if c = 10 ∨ c = 13 then skipNewlines src (si + 1) else (c :: src, si)

/-- The loops of `Encoding.Decode` and `decodeQuantum`, run over the bytes of `src` from
index `si` on; `dbuf` holds the 6-bit values read so far for the current quantum (`j` in the
source is `dbuf.length`) and `srcLen` is `len(src)`. The result is the decoded bytes, or the
offset carried by the `CorruptInputError`. The paths of `Decode` that read 8 or 4 alphabet bytes
at once write what `decodeQuantum` writes for them and are not separate cases here. -/
def Encoding.decodeFrom (enc : Encoding) (srcLen : Nat) :
    List Nat → GoString → Nat → Except Nat (List Nat)
  | dbuf, [], si =>
    if dbuf.length = 0 then .ok []
    else if dbuf.length = 1 ∨ enc.padChar ≠ none then .error (si - dbuf.length)
    else .ok (quantumBytes dbuf)
  | dbuf, c :: src, si =>
    if enc.decodeMap c ≠ 0xff then
      if dbuf.length = 3 then
        match enc.decodeFrom srcLen [] src (si + 1) with
        | .ok out => .ok (quantumBytes (dbuf ++ [enc.decodeMap c]) ++ out)
        | .error e => .error e
      else enc.decodeFrom srcLen (dbuf ++ [enc.decodeMap c]) src (si + 1)
    else if c = 10 ∨ c = 13 then enc.decodeFrom srcLen dbuf src (si + 1)
    else if some c ≠ enc.padChar then .error si
    else if dbuf.length < 2 then .error si
    else if dbuf.length = 2 then
      match skipNewlines src (si + 1) with
      | ([], _) => .error srcLen
      | (c2 :: src2, si2) =>
        if some c2 ≠ enc.padChar then .error (si2 - 1)
        else
          match skipNewlines src2 (si2 + 1) with
          | ([], _) => .ok (quantumBytes dbuf)
          | (_ :: _, si3) => .error si3
    else
      match skipNewlines src (si + 1) with
      | ([], _) => .ok (quantumBytes dbuf)
      | (_ :: _, si3) => .error si3

/-- The text of a `CorruptInputError`. -/
def CorruptInputError (e : Nat) : GoString :=
  lit "illegal base64 data at input byte " ++ itoa e

/-- Go `enc.DecodeString(s)`. The source returns the bytes decoded before an error together
with the error; its only caller here drops them, and so does this definition. -/
def Encoding.DecodeString (enc : Encoding) (s : GoString) : Except GoString (List Nat) :=
  match enc.decodeFrom s.length [] s 0 with
  | .ok out => .ok out
  | .error e => .error (CorruptInputError e)

end base64

/-! ## Package `github.com/google/uuid` -/

namespace uuid

/-- The table `xvalues`: the value of a hexadecimal digit, 255 for every other byte. -/
def xvalues (c : Nat) : Nat :=
  if 48 ≤ c ∧ c ≤ 57 then c - 48
  else if 97 ≤ c ∧ c ≤ 102 then c - 87
  else if 65 ≤ c ∧ c ≤ 70 then c - 55
  else 255

/-- The function `xtob`: the byte written by two hexadecimal digits, and whether both are
digits. -/
def xtob (x1 x2 : Nat) : Nat × Bool :=
  ((xvalues x1 <<< 4 ||| xvalues x2) % 256, decide (xvalues x1 ≠ 255 ∧ xvalues x2 ≠ 255))

/-- The loops of `ParseBytes` over the offsets of the 16 digit pairs: the 16 bytes, or `none`
when a pair is not two hexadecimal digits. -/
def hexPairs (b : GoString) : List Nat → Option (List Nat)
  | [] => some []
  | x :: rest =>
    if (xtob (b.getD x 0) (b.getD (x + 1) 0)).2 then
      (hexPairs b rest).map (fun u => (xtob (b.getD x 0) (b.getD (x + 1) 0)).1 :: u)
    else none

/-- Whether `b[:9]` is `urn:uuid:` up to the case of its letters. -/
def hasURNPrefix (b : GoString) : Bool :=
  (b.take 9).map (fun c => if 65 ≤ c ∧ c ≤ 90 then c + 32 else c) == lit "urn:uuid:"

/-- The function `ParseBytes`, which `UUID.UnmarshalText` calls on the text of `sub`. It reads
the 36-byte form, the 45-byte form with `urn:uuid:` in front, any 38-byte string (its first and
last byte are dropped unread) and 32 hexadecimal digits. `quote` is the verb `%q` of the
`invalid urn prefix` error. -/
def ParseBytes (quote : GoString → GoString) (b : GoString) : Except GoString (List Nat) :=
  if b.length = 32 then
    match hexPairs b [0, 2, 4, 6, 8, 10, 12, 14, 16, 18, 20, 22, 24, 26, 28, 30] with
    | some u => .ok u
    | none => .error (lit "invalid UUID format")
  else if b.length = 36 ∨ b.length = 36 + 9 ∨ b.length = 36 + 2 then
    if b.length = 36 + 9 ∧ hasURNPrefix b = false then
      .error (lit "invalid urn prefix: " ++ quote (b.take 9))
    else
      let b := if b.length = 36 + 9 then b.drop 9 else if b.length = 36 + 2 then b.drop 1 else b
      if b.getD 8 0 ≠ 45 ∨ b.getD 13 0 ≠ 45 ∨ b.getD 18 0 ≠ 45 ∨ b.getD 23 0 ≠ 45 then
        .error (lit "invalid UUID format")
      else
        match hexPairs b [0, 2, 4, 6, 9, 11, 14, 16, 19, 21, 24, 26, 28, 30, 32, 34] with
        | some u => .ok u
        | none => .error (lit "invalid UUID format")
  else .error (lit "invalid UUID length: " ++ itoa b.length)

end uuid

/-! ## Claims decoder -/

/-- The struct `TokenClaims`; `Sub` is a `uuid.UUID`, an array of 16 bytes. -/
structure TokenClaims where
  Sub : List Nat
  Scope : GoString
  Exp : Int
deriving DecidableEq, Repr

/-- The closure `base64UrlDecode` of `extractClaimsFromJWT`. -/
def extractClaimsFromJWT.base64UrlDecode (data : GoString) : Except GoString (List Nat) :=
  let padding := data.length % 4
  let data := if padding > 0 then data ++ strings.Repeat (lit "=") (4 - padding) else data
  let data := strings.ReplaceAll data (lit "-") (lit "+")
  let data := strings.ReplaceAll data (lit "_") (lit "/")
  base64.URLEncoding.DecodeString data

/-- The function `extractClaimsFromJWT`. `jsonUnmarshal payload` stands for
`json.Unmarshal(payload, &claims)` on a zero `TokenClaims`: the claims it fills in, or the text
of its error. The result `.ok claims` is the source's `(&claims, nil)`, `.error e` is
`(nil, err)` with `err.Error() = e`. -/
def extractClaimsFromJWT (jsonUnmarshal : List Nat → Except GoString TokenClaims)
    (tokenString : GoString) : Except GoString TokenClaims :=
  let parts := strings.Split tokenString (lit ".")
  if parts.length ≠ 3 then
    .error (lit "invalid jwt, failed to parse, found " ++ itoa parts.length ++ lit " parts")
  else
    match extractClaimsFromJWT.base64UrlDecode (parts.getD 1 []) with
    | .error err => .error (lit "invalid jwt, failed to decode payload: " ++ err)
    | .ok payload =>
      match jsonUnmarshal payload with
      | .error err => .error (lit "invalid jwt, failed to unmarshal payload: " ++ err)
      | .ok claims => .ok claims

/-! ## Request context -/

/-- The context keys: the three of this package (`assertionTokenClaimsKey` of type
`tokenClaimsCtxKey`, `jwtToken` of type `jwtTokenCtx`, `scopesKey` of type `ctxKeyName`) and
the keys of other packages, which are equal to none of them. -/
inductive Key
  | assertionTokenClaimsKey
  | jwtToken
  | scopesKey
  | other (id : Nat)
deriving DecidableEq, Repr

/-- A value stored in a context (Go `any`): a `*TokenClaims` (`none` is the nil pointer), a
`string`, or a value of another type. -/
inductive Value
  | tokenClaims (p : Option TokenClaims)
  | string (s : GoString)
  | other (id : Nat)
deriving DecidableEq, Repr

/-- Go `context.Context`, as far as values go: the background context, or a parent with one
more key and value (`context.WithValue`). -/
inductive Context
  | Background
  | WithValue (parent : Context) (key : Key) (val : Value)
deriving DecidableEq, Repr

/-- Go `ctx.Value(key)`: the value of the nearest `WithValue` for `key`; `none` is the nil
interface. -/
def Context.Value : Context → Key → Option Value
  | .Background, _ => none
  | .WithValue parent k val, key => if k = key then some val else parent.Value key

/-- The function `GetTokenClaims`; `none` is the nil pointer. -/
def GetTokenClaims (ctx : Context) : Option TokenClaims :=
  match ctx.Value .assertionTokenClaimsKey with
  | some (.tokenClaims claims) => claims
  | _ => none

/-- The function `GetJWTFromContext`. -/
def GetJWTFromContext (ctx : Context) : GoString :=
  match ctx.Value .jwtToken with
  | some (.string token) => token
  | _ => lit ""

/-- The loop of `HasAllScopes` over the required scopes still to be checked. -/
def HasAllScopes.loop (scopes : GoString) : List GoString → Bool
  | [] => true
  | scope :: rest =>
    if !strings.Contains scopes scope then false
    else HasAllScopes.loop scopes rest

/-- The function `HasAllScopes`. -/
def HasAllScopes (ctx : Context) (requiredScopes : List GoString) : Bool :=
  match ctx.Value .scopesKey with
  | some (.string scopes) => HasAllScopes.loop scopes requiredScopes
  | _ => false

/-- The loop of `MatchedScopes`: `matchedScopes` is the slice built so far. -/
def MatchedScopes.loop (scopes : GoString) : List GoString → List GoString → List GoString
  | matchedScopes, [] => matchedScopes
  | matchedScopes, scope :: rest =>
    if strings.Contains scopes scope then MatchedScopes.loop scopes (matchedScopes ++ [scope]) rest
    else MatchedScopes.loop scopes matchedScopes rest

/-- The function `MatchedScopes`; the nil slice and the empty slice are both `[]`. -/
def MatchedScopes (ctx : Context) (requiredScopes : List GoString) : List GoString × Bool :=
  match ctx.Value .scopesKey with
  | some (.string scopes) =>
    let matchedScopes := MatchedScopes.loop scopes [] requiredScopes
    (matchedScopes, decide (matchedScopes.length > 0))
  | _ => ([], false)

/-! ## Assertion middleware -/

/-- Go `http.Header`, a map from canonical header names to the values sent under them. -/
abbrev Header := List (GoString × List GoString)

/-- Go `h.Get(key)`: the first value stored under the canonical form of `key`, the empty string
when there is none. `canonical` is `textproto.CanonicalMIMEHeaderKey`. -/
def Header.Get (canonical : GoString → GoString) (h : Header) (key : GoString) : GoString :=
  match h.lookup (canonical key) with
  | some (v :: _) => v
  | _ => lit ""

/-- What the middleware reads of a Go `*http.Request`: its headers and its context. -/
structure Request where
  Header : Header
  ctx : Context
deriving DecidableEq, Repr

/-- Go `r.Context()`. -/
def Request.Context (r : Request) : jwtassertion.Context :=
  r.ctx

/-- Go `r.WithContext(ctx)`. -/
def Request.WithContext (r : Request) (ctx : jwtassertion.Context) : Request :=
  { r with ctx := ctx }

/-- The constant `http.StatusUnauthorized`. -/
def StatusUnauthorized : Nat := 401

/-- The one call that an execution of the handler built by `JWTAuthMiddleware` ends in:
`utils.WriteErrorResponse(w, statusCode, message)`, after which it returns, or
`next.ServeHTTP(w, r)`, the invocation of the wrapped handler. -/
inductive Action
  | WriteErrorResponse (statusCode : Nat) (message : GoString)
  | ServeHTTP (r : Request)
deriving DecidableEq, Repr

/-- The handler that `JWTAuthMiddleware(header)(next)` builds, run on the request `r`. -/
def JWTAuthMiddleware (jsonUnmarshal : List Nat → Except GoString TokenClaims)
    (canonical : GoString → GoString) (header : GoString) (r : Request) : Action :=
  let tokenString := r.Header.Get canonical header
  if tokenString = lit "" then
    .WriteErrorResponse StatusUnauthorized (lit "missing header: " ++ header)
  else
    let tokenString := strings.Replace tokenString (lit "Bearer ") (lit "") 1
    match extractClaimsFromJWT jsonUnmarshal tokenString with
    | .error err => .WriteErrorResponse StatusUnauthorized (lit "invalid jwt: " ++ err)
    | .ok claims =>
      let ctx := r.Context
      let ctx := Context.WithValue ctx .assertionTokenClaimsKey (.tokenClaims (some claims))
      let ctx := Context.WithValue ctx .jwtToken (.string tokenString)
      let ctx := Context.WithValue ctx .scopesKey (.string claims.Scope)
      .ServeHTTP (r.WithContext ctx)

/-! ## The example of the specification -/

/-- The claims of the example token: subject `6ba7b810-9dad-11d1-80b4-00c04fd430c8`, scope
`read write`, expiry `9999999999`. -/
def exampleClaims : TokenClaims :=
  ⟨[0x6b, 0xa7, 0xb8, 0x10, 0x9d, 0xad, 0x11, 0xd1, 0x80, 0xb4, 0x00, 0xc0, 0x4f, 0xd4, 0x30, 0xc8],
    lit "read write", 9999999999⟩

/-- The JSON text that the payload segment of the example token encodes. -/
def examplePayload : GoString :=
  lit "\x7b\"sub\":\"6ba7b810-9dad-11d1-80b4-00c04fd430c8\",\"scope\":\"read write\",\"exp\":9999999999\x7d"

/-- The example token, without the `Bearer ` in front of it. -/
def exampleToken : GoString :=
  lit "eyJhbGciOiJub25lIn0.eyJzdWIiOiI2YmE3YjgxMC05ZGFkLTExZDEtODBiNC0wMGMwNGZkNDMwYzgiLCJzY29wZSI6InJlYWQgd3JpdGUiLCJleHAiOjk5OTk5OTk5OTl9.x"

/-- What `json.Unmarshal` does on the two payloads used as examples below: the example payload
gives the example claims, the empty object leaves the zero claims (nil UUID, empty scope, expiry
0); no other payload is looked at. -/
def exampleUnmarshal (payload : List Nat) : Except GoString TokenClaims :=
  if payload = examplePayload then .ok exampleClaims
  else if payload = lit "\x7b\x7d" then .ok ⟨List.replicate 16 0, lit "", 0⟩
  else .error (lit "not an example payload")

/-- A request whose only header is `Authorization`, with the one value `v`, on the background
context. -/
def exampleRequest (v : GoString) : Request :=
  ⟨[(lit "Authorization", [v])], .Background⟩

/-- The context that the middleware derives for the example request. -/
def exampleContext : Context :=
  .WithValue (.WithValue (.WithValue .Background .assertionTokenClaimsKey
    (.tokenClaims (some exampleClaims))) .jwtToken (.string exampleToken))
    .scopesKey (.string (lit "read write"))

/-- What `json.Unmarshal` does on four more payloads used as examples below: an object with a
negative expiry, an object with the expiry 1 (the first second of 1970), the truncated text
that is one opening brace, and an object whose `sub` is the string `abc`, which `uuid` does not
parse; no other payload is looked at. -/
def furtherUnmarshal (payload : List Nat) : Except GoString TokenClaims :=
  if payload = lit "\x7b\"exp\":-1\x7d" then .ok ⟨List.replicate 16 0, lit "", -1⟩
  else if payload = lit "\x7b\"exp\":1\x7d" then .ok ⟨List.replicate 16 0, lit "", 1⟩
  else if payload = lit "\x7b" then .error (lit "unexpected end of JSON input")
  else if payload = lit "\x7b\"sub\":\"abc\"\x7d" then .error (lit "invalid UUID length: 3")
  else .error (lit "not an example payload")

/-- What `strconv.Quote` gives for printable ASCII text without `"` and `\`: the text between
double quotes. The examples below need no other text quoted. -/
def quotePlain (s : GoString) : GoString :=
  lit "\"" ++ s ++ lit "\""

/-- What `json.Unmarshal` does on the text of an object whose only member is `sub`, with the
string `sub` (plain ASCII, nothing escaped) as its value: it hands the bytes of `sub` to
`UUID.UnmarshalText`, which is `ParseBytes`; it returns the error of that call if there is one,
and otherwise the claims with the parsed subject, the empty scope and the expiry 0. No other
payload is looked at. -/
def subMemberUnmarshal (sub : GoString) (payload : List Nat) : Except GoString TokenClaims :=
  if payload = lit "\x7b\"sub\":\"" ++ sub ++ lit "\"\x7d" then
    match uuid.ParseBytes quotePlain sub with
    | .ok u => .ok ⟨u, lit "", 0⟩
    | .error err => .error err
  else .error (lit "not an example payload")

/-! ## Facts about the embedded library functions -/

set_option maxRecDepth 100000

theorem lit_dot : lit "." = [46] := by decide

theorem HasPrefix_byte (c b : Nat) (s : GoString) :
    strings.HasPrefix (c :: s) [b] = decide (c = b) := by
  by_cases h : c = b
  · subst h
    simp [strings.HasPrefix, List.isPrefixOf]
  · have h2 : ¬ b = c := fun e => h e.symm
    simp [strings.HasPrefix, List.isPrefixOf, h, h2]

theorem splitFrom_byte_cons (b c : Nat) (cur s : GoString) :
    strings.splitFrom [b] 0 cur (c :: s) =
      if c = b then cur :: strings.splitFrom [b] 0 [] s
      else strings.splitFrom [b] 0 (cur ++ [c]) s := by
  simp [strings.splitFrom, HasPrefix_byte]

/-- Splitting on a one-byte separator gives one segment more than there are separators. -/
theorem length_splitFrom_byte (b : Nat) (s : GoString) :
    ∀ cur : GoString, (strings.splitFrom [b] 0 cur s).length = s.count b + 1 := by
  induction s with
  | nil => intro cur; simp [strings.splitFrom]
  | cons c s ih =>
    intro cur
    rw [splitFrom_byte_cons]
    by_cases h : c = b
    · subst h
      simp [ih]
    · have h2 : ¬ (c == b) = true := by simpa using h
      simp [h, ih, List.count_cons, h2]

theorem length_Split_dot (s : GoString) :
    (strings.Split s (lit ".")).length = s.count 46 + 1 := by
  rw [lit_dot]
  exact length_splitFrom_byte 46 s []

theorem HasPrefix_iff (s pre : GoString) : strings.HasPrefix s pre = true ↔ pre <+: s := by
  simp [strings.HasPrefix]

/-- `strings.Contains` decides whether `substr` is a contiguous part of `s`. -/
theorem Contains_iff (s substr : GoString) :
    strings.Contains s substr = true ↔ substr <:+: s := by
  induction s with
  | nil =>
    by_cases h : strings.HasPrefix [] substr = true
    · have h2 := List.prefix_nil.1 ((HasPrefix_iff [] substr).1 h)
      subst h2
      simp [strings.Contains, strings.Index, strings.HasPrefix]
    · have h2 : ¬ substr = [] := fun e => h (by simp [strings.HasPrefix, e])
      simp [strings.Contains, strings.Index, h, h2]
  | cons c s ih =>
    rw [List.infix_cons_iff, ← ih, ← HasPrefix_iff]
    by_cases h : strings.HasPrefix (c :: s) substr = true
    · simp [strings.Contains, strings.Index, h]
    · simp [strings.Contains, strings.Index, h]

theorem Contains_eq_decide (s substr : GoString) :
    strings.Contains s substr = decide (substr <:+: s) := by
  rw [Bool.eq_iff_iff, Contains_iff]
  simp

theorem HasAllScopes_loop_iff (scopes : GoString) (required : List GoString) :
    HasAllScopes.loop scopes required = true ↔ ∀ x ∈ required, x <:+: scopes := by
  induction required with
  | nil => simp [HasAllScopes.loop]
  | cons x rest ih =>
    by_cases h : strings.Contains scopes x = true
    · simp [HasAllScopes.loop, h, ih, (Contains_iff scopes x).1 h]
    · have h2 : ¬ x <:+: scopes := fun e => h ((Contains_iff scopes x).2 e)
      simp [HasAllScopes.loop, h, h2]

theorem MatchedScopes_loop_eq (scopes : GoString) (required : List GoString) :
    ∀ matched : List GoString,
      MatchedScopes.loop scopes matched required =
        matched ++ required.filter (fun x => decide (x <:+: scopes)) := by
  induction required with
  | nil => intro matched; simp [MatchedScopes.loop]
  | cons x rest ih =>
    intro matched
    by_cases h : strings.Contains scopes x = true
    · have h2 := (Contains_iff scopes x).1 h
      simp [MatchedScopes.loop, h, ih, h2]
    · have h2 : ¬ x <:+: scopes := fun e => h ((Contains_iff scopes x).2 e)
      simp [MatchedScopes.loop, h, ih, h2]

theorem JWTAuthMiddleware_invalid_jwt_aux
    (jsonUnmarshal : List Nat → Except GoString TokenClaims) (canonical : GoString → GoString)
    (header : GoString) (r : Request) (e : GoString)
    (hv : Header.Get canonical r.Header header ≠ lit "")
    (he : extractClaimsFromJWT jsonUnmarshal
      (strings.Replace (Header.Get canonical r.Header header) (lit "Bearer ") (lit "") 1) =
        .error e) :
    JWTAuthMiddleware jsonUnmarshal canonical header r =
      .WriteErrorResponse 401 (lit "invalid jwt: " ++ e) := by
  simp only [JWTAuthMiddleware, if_neg hv, he, StatusUnauthorized]

/-- The first segment of a split does not depend on what follows the first separator. -/
theorem head_splitFrom_byte (b : Nat) (p s1 s2 : GoString) :
    ∀ cur : GoString,
      (strings.splitFrom [b] 0 cur (p ++ b :: s1)).head? =
        (strings.splitFrom [b] 0 cur (p ++ b :: s2)).head? := by
  induction p with
  | nil => intro cur; simp [splitFrom_byte_cons]
  | cons c p ih =>
    intro cur
    rw [List.cons_append, List.cons_append, splitFrom_byte_cons, splitFrom_byte_cons]
    by_cases h : c = b
    · simp [h]
    · simp only [if_neg h]
      exact ih (cur ++ [c])

/-- A separator-free prefix followed by the separator is the first segment. -/
theorem splitFrom_byte_prefix (b : Nat) (a rest : GoString) (h : b ∉ a) :
    ∀ cur : GoString,
      strings.splitFrom [b] 0 cur (a ++ b :: rest) =
        (cur ++ a) :: strings.splitFrom [b] 0 [] rest := by
  induction a with
  | nil => intro cur; simp [splitFrom_byte_cons]
  | cons c a ih =>
    intro cur
    have hc : ¬ c = b := fun e => h (by simp [e])
    have ha : b ∉ a := fun e => h (by simp [e])
    rw [List.cons_append, splitFrom_byte_cons, if_neg hc, ih ha]
    simp

/-- A separator-free string is its own single segment. -/
theorem splitFrom_byte_no_sep (b : Nat) (a : GoString) (h : b ∉ a) :
    ∀ cur : GoString, strings.splitFrom [b] 0 cur a = [cur ++ a] := by
  induction a with
  | nil => intro cur; simp [strings.splitFrom]
  | cons c a ih =>
    intro cur
    have hc : ¬ c = b := fun e => h (by simp [e])
    have ha : b ∉ a := fun e => h (by simp [e])
    rw [splitFrom_byte_cons, if_neg hc, ih ha]
    simp

theorem token_eq (h p s : GoString) :
    h ++ lit "." ++ p ++ lit "." ++ s = h ++ 46 :: (p ++ 46 :: s) := by
  simp [lit_dot]

theorem getD_one_cons (a : GoString) (l : List GoString) :
    (a :: l).getD 1 [] = l.head?.getD [] := by
  cases l <;> rfl

/-- The three segments of `h.p.s` when none of them has a `.` in it. -/
theorem Split_three (h p s : GoString) (hh : 46 ∉ h) (hp : 46 ∉ p) (hs : 46 ∉ s) :
    strings.Split (h ++ lit "." ++ p ++ lit "." ++ s) (lit ".") = [h, p, s] := by
  rw [token_eq, strings.Split, lit_dot, splitFrom_byte_prefix 46 h _ hh,
    splitFrom_byte_prefix 46 p _ hp, splitFrom_byte_no_sep 46 s hs]
  simp

/-- The decoder looks at the number of segments and at the second segment only. -/
theorem extractClaimsFromJWT_congr
    (jsonUnmarshal : List Nat → Except GoString TokenClaims) (t1 t2 : GoString)
    (hl : (strings.Split t1 (lit ".")).length = (strings.Split t2 (lit ".")).length)
    (hp : (strings.Split t1 (lit ".")).getD 1 [] = (strings.Split t2 (lit ".")).getD 1 []) :
    extractClaimsFromJWT jsonUnmarshal t1 = extractClaimsFromJWT jsonUnmarshal t2 := by
  simp only [extractClaimsFromJWT, hl, hp]

/-- What the decoder does on a token of three `.`-free segments. -/
theorem extractClaimsFromJWT_three
    (jsonUnmarshal : List Nat → Except GoString TokenClaims) (h p s : GoString)
    (hh : 46 ∉ h) (hp : 46 ∉ p) (hs : 46 ∉ s) :
    extractClaimsFromJWT jsonUnmarshal (h ++ lit "." ++ p ++ lit "." ++ s) =
      match extractClaimsFromJWT.base64UrlDecode p with
      | .error err => .error (lit "invalid jwt, failed to decode payload: " ++ err)
      | .ok payload =>
        match jsonUnmarshal payload with
        | .error err => .error (lit "invalid jwt, failed to unmarshal payload: " ++ err)
        | .ok claims => .ok claims := by
  simp only [extractClaimsFromJWT, Split_three h p s hh hp hs]
  simp

/-- On the example token the decoder returns what `json.Unmarshal` makes of the example
payload. -/
theorem extractClaimsFromJWT_exampleToken
    (jsonUnmarshal : List Nat → Except GoString TokenClaims) :
    extractClaimsFromJWT jsonUnmarshal exampleToken =
      match jsonUnmarshal examplePayload with
      | .error err => .error (lit "invalid jwt, failed to unmarshal payload: " ++ err)
      | .ok claims => .ok claims := by
  rfl

theorem lit_Bearer : lit "Bearer " = [66, 101, 97, 114, 101, 114, 32] := by decide

theorem replaceFrom_zero (old new s : GoString) : strings.replaceFrom old new 0 0 s = s := by
  cases s <;> rfl

/-- A leading `Bearer ` is removed by `strings.Replace(v, "Bearer ", "", 1)`. -/
theorem Replace_Bearer_prefix (t : GoString) :
    strings.Replace (lit "Bearer " ++ t) (lit "Bearer ") (lit "") 1 = t := by
  have he : lit "" = [] := by decide
  rw [lit_Bearer, he]
  simp [strings.Replace, strings.Count, strings.countFrom, strings.replaceFrom,
    strings.HasPrefix, List.isPrefixOf, replaceFrom_zero]

theorem countFrom_of_not_Contains (old : GoString) (v : GoString) :
    strings.Contains v old = false → strings.countFrom old 0 v = 0 := by
  induction v with
  | nil => intro _; rfl
  | cons c s ih =>
    intro h
    by_cases hp : strings.HasPrefix (c :: s) old = true
    · simp [strings.Contains, strings.Index, hp] at h
    · have hs : strings.Contains s old = false := by
        simpa [strings.Contains, strings.Index, hp] using h
      simp [strings.countFrom, hp, ih hs]

/-- A string without `old` in it is left as it is by `strings.Replace`. -/
theorem Replace_of_not_Contains (v old new : GoString) (n : Int)
    (h : strings.Contains v old = false) : strings.Replace v old new n = v := by
  unfold strings.Replace
  simp only [strings.Count, countFrom_of_not_Contains old v h, Nat.min_zero, replaceFrom_zero]
  split
  · rfl
  · split <;> rfl

/-- The example of the specification: the header `Authorization: Bearer <example token>` makes
the middleware call the wrapped handler with the example claims, the token without its
`Bearer ` and the scope `read write` in the context, on which the scope predicates give the
results listed there. -/
theorem JWTAuthMiddleware_example :
    JWTAuthMiddleware exampleUnmarshal id (lit "Authorization")
        (exampleRequest (lit "Bearer " ++ exampleToken)) =
      .ServeHTTP ⟨[(lit "Authorization", [lit "Bearer " ++ exampleToken])], exampleContext⟩ ∧
    GetTokenClaims exampleContext = some exampleClaims ∧
    GetJWTFromContext exampleContext = exampleToken ∧
    HasAllScopes exampleContext [lit "read"] = true ∧
    HasAllScopes exampleContext [lit "delete"] = false ∧
    MatchedScopes exampleContext [lit "read", lit "delete"] = ([lit "read"], true) := by
  refine ⟨by rfl, by rfl, by rfl, by decide, by decide, by decide⟩

/-- The decoder returns claims for tokens of exactly three segments only. -/
theorem length_Split_of_ok
    (jsonUnmarshal : List Nat → Except GoString TokenClaims) (tokenString : GoString)
    (claims : TokenClaims) (h : extractClaimsFromJWT jsonUnmarshal tokenString = .ok claims) :
    (strings.Split tokenString (lit ".")).length = 3 := by
  by_contra hne
  simp only [extractClaimsFromJWT] at h
  rw [if_pos hne] at h
  cases h

/-- What the decoder returns on a token of three segments whose second segment decodes. -/
theorem extractClaimsFromJWT_of_decoded
    (jsonUnmarshal : List Nat → Except GoString TokenClaims) (tokenString : GoString)
    (payload : List Nat)
    (h3 : (strings.Split tokenString (lit ".")).length = 3)
    (hd : extractClaimsFromJWT.base64UrlDecode
      ((strings.Split tokenString (lit ".")).getD 1 []) = .ok payload) :
    extractClaimsFromJWT jsonUnmarshal tokenString =
      match jsonUnmarshal payload with
      | .error err => .error (lit "invalid jwt, failed to unmarshal payload: " ++ err)
      | .ok claims => .ok claims := by
  simp only [extractClaimsFromJWT, h3, hd]
  simp

/-- What the handler does when the header is there and the decoder returns claims. -/
theorem JWTAuthMiddleware_of_ok
    (jsonUnmarshal : List Nat → Except GoString TokenClaims) (canonical : GoString → GoString)
    (header : GoString) (r : Request) (claims : TokenClaims)
    (hv : Header.Get canonical r.Header header ≠ lit "")
    (he : extractClaimsFromJWT jsonUnmarshal
      (strings.Replace (Header.Get canonical r.Header header) (lit "Bearer ") (lit "") 1) =
        .ok claims) :
    JWTAuthMiddleware jsonUnmarshal canonical header r =
      .ServeHTTP (r.WithContext
        (.WithValue (.WithValue (.WithValue r.Context .assertionTokenClaimsKey
          (.tokenClaims (some claims))) .jwtToken
          (.string (strings.Replace (Header.Get canonical r.Header header)
            (lit "Bearer ") (lit "") 1))) .scopesKey (.string claims.Scope))) := by
  simp only [JWTAuthMiddleware, if_neg hv, he]

/-- The handler calls the wrapped handler only after the decoder has returned claims for the
token that it stores. -/
theorem extractClaimsFromJWT_ok_of_ServeHTTP
    (jsonUnmarshal : List Nat → Except GoString TokenClaims) (canonical : GoString → GoString)
    (header : GoString) (r r2 : Request)
    (h : JWTAuthMiddleware jsonUnmarshal canonical header r = .ServeHTTP r2) :
    ∃ claims : TokenClaims,
      extractClaimsFromJWT jsonUnmarshal (GetJWTFromContext r2.Context) = .ok claims ∧
      r2.Context.Value .jwtToken = some (.string (GetJWTFromContext r2.Context)) := by
  by_cases hv : Header.Get canonical r.Header header = lit ""
  · simp only [JWTAuthMiddleware, hv] at h
    rw [if_pos trivial] at h
    cases h
  · cases he : extractClaimsFromJWT jsonUnmarshal
        (strings.Replace (Header.Get canonical r.Header header) (lit "Bearer ") (lit "") 1) with
    | error e =>
      rw [JWTAuthMiddleware_invalid_jwt_aux jsonUnmarshal canonical header r e hv he] at h
      cases h
    | ok claims =>
      rw [JWTAuthMiddleware_of_ok jsonUnmarshal canonical header r claims hv he] at h
      injection h with h
      subst h
      refine ⟨claims, ?_, ?_⟩
      · simpa [GetJWTFromContext, Request.Context, Request.WithContext, Context.Value] using he
      · simp [GetJWTFromContext, Request.Context, Request.WithContext, Context.Value]

/-! ### Replacing one byte by another -/

theorem countFrom_byte (a : Nat) (s : GoString) : strings.countFrom [a] 0 s = s.count a := by
  induction s with
  | nil => rfl
  | cons c s ih =>
    by_cases h : c = a
    · subst h
      simp [strings.countFrom, HasPrefix_byte, ih]
    · have h2 : ¬ (c == a) = true := by simpa using h
      simp [strings.countFrom, HasPrefix_byte, ih, h, List.count_cons, h2]

theorem replaceFrom_byte (a b : Nat) (s : GoString) :
    ∀ n : Nat, s.count a ≤ n →
      strings.replaceFrom [a] [b] n 0 s = s.map (fun c => if c = a then b else c) := by
  induction s with
  | nil => intro n _; cases n <;> rfl
  | cons c s ih =>
    intro n hn
    by_cases h : c = a
    · subst h
      rw [List.count_cons_self] at hn
      cases n with
      | zero => omega
      | succ m =>
        simp [strings.replaceFrom, HasPrefix_byte, ih m (by omega)]
    · have h2 : ¬ (c == a) = true := by simpa using h
      rw [List.count_cons, if_neg h2, Nat.add_zero] at hn
      cases n with
      | zero =>
        have hz : s.count a = 0 := by omega
        have hmem : a ∉ s := List.count_eq_zero.1 hz
        have hid : s.map (fun c => if c = a then b else c) = s := by
          conv_rhs => rw [← List.map_id s]
          apply List.map_congr_left
          intro x hx
          have hxa : ¬ x = a := fun e => hmem (e ▸ hx)
          simp [hxa]
        simp [strings.replaceFrom, h, hid]
      | succ m =>
        simp [strings.replaceFrom, HasPrefix_byte, h, ih (m + 1) hn]

/-- `strings.ReplaceAll` with one-byte strings replaces that byte wherever it stands. -/
theorem ReplaceAll_byte (a b : Nat) (hab : a ≠ b) (s : GoString) :
    strings.ReplaceAll s [a] [b] = s.map (fun c => if c = a then b else c) := by
  have h1 : ¬ ([a] = [b] ∨ (-1 : Int) = 0) := by simp [hab]
  have h2 : (-1 : Int) < 0 := by decide
  simp only [strings.ReplaceAll, strings.Replace, if_neg h1, if_pos h2, strings.Count,
    countFrom_byte]
  exact replaceFrom_byte a b s _ (Nat.le_refl _)

/-! ### The Base64 decoder -/

theorem URLEncoding_decodeMap_alnum :
    ∀ c, c < 123 → ((65 ≤ c ∧ c ≤ 90) ∨ (97 ≤ c ∧ c ≤ 122) ∨ (48 ≤ c ∧ c ≤ 57)) →
      base64.URLEncoding.decodeMap c ≠ 0xff := by
  decide

theorem URLEncoding_decodeMap_other :
    base64.URLEncoding.decodeMap 61 = 0xff ∧ base64.URLEncoding.decodeMap 43 = 0xff ∧
      base64.URLEncoding.decodeMap 47 = 0xff := by
  decide

/-- Skipping newlines drops newline bytes only. -/
theorem mem_skipNewlines (x : Nat) (h10 : x ≠ 10) (h13 : x ≠ 13) (src : GoString) :
    ∀ si : Nat, x ∈ src → x ∈ (base64.skipNewlines src si).1 := by
  induction src with
  | nil => intro si hx; cases hx
  | cons c src ih =>
    intro si hx
    by_cases hc : c = 10 ∨ c = 13
    · have hxc : x ≠ c := by
        rcases hc with hc | hc
        · exact fun e => h10 (e.trans hc)
        · exact fun e => h13 (e.trans hc)
      have hx2 : x ∈ src := by
        rcases List.mem_cons.1 hx with e | e
        · exact absurd e hxc
        · exact e
      simp only [base64.skipNewlines, if_pos hc]
      exact ih (si + 1) hx2
    · simp only [base64.skipNewlines, if_neg hc]
      exact hx

/-- A byte that is neither in the alphabet, nor a newline, nor the padding character makes the
decoder fail, wherever it stands in the input. -/
theorem decodeFrom_error_of_mem (enc : base64.Encoding) (srcLen x : Nat)
    (hmap : enc.decodeMap x = 0xff) (h10 : x ≠ 10) (h13 : x ≠ 13)
    (hpad : some x ≠ enc.padChar) (src : GoString) :
    ∀ (dbuf : List Nat) (si : Nat), x ∈ src →
      ∃ e, enc.decodeFrom srcLen dbuf src si = .error e := by
  induction src with
  | nil => intro dbuf si hx; cases hx
  | cons c src ih =>
    intro dbuf si hx
    by_cases hxc : x = c
    · subst hxc
      have hnl : ¬ (x = 10 ∨ x = 13) := by
        intro h
        rcases h with h | h
        · exact h10 h
        · exact h13 h
      refine ⟨si, ?_⟩
      simp only [base64.Encoding.decodeFrom]
      rw [if_neg (by simp [hmap]), if_neg hnl, if_pos hpad]
    · have hx2 : x ∈ src := by
        rcases List.mem_cons.1 hx with e | e
        · exact absurd e hxc
        · exact e
      simp only [base64.Encoding.decodeFrom]
      split
      · split
        · obtain ⟨e, he⟩ := ih [] (si + 1) hx2
          rw [he]
          exact ⟨e, rfl⟩
        · exact ih _ (si + 1) hx2
      · split
        · exact ih dbuf (si + 1) hx2
        · split
          · exact ⟨_, rfl⟩
          · rename_i hcp
            split
            · exact ⟨_, rfl⟩
            · split
              · split
                · exact ⟨_, rfl⟩
                · rename_i c2 src2 si2 hsk
                  split
                  · exact ⟨_, rfl⟩
                  · rename_i hc2
                    have hm := mem_skipNewlines x h10 h13 src (si + 1) hx2
                    rw [hsk] at hm
                    have hxc2 : x ≠ c2 := by
                      intro e
                      apply hpad
                      rw [e]
                      exact not_not.1 hc2
                    have hx3 : x ∈ src2 := by
                      rcases List.mem_cons.1 hm with e | e
                      · exact absurd e hxc2
                      · exact e
                    have hm2 := mem_skipNewlines x h10 h13 src2 (si2 + 1) hx3
                    split
                    · rename_i hsk2
                      rw [hsk2] at hm2
                      cases hm2
                    · exact ⟨_, rfl⟩
              · have hm := mem_skipNewlines x h10 h13 src (si + 1) hx2
                split
                · rename_i hsk
                  rw [hsk] at hm
                  cases hm
                · exact ⟨_, rfl⟩

/-- On alphabet bytes followed by the missing padding the padded decoder succeeds: two `=` when
the bytes end two into a quantum, one `=` when they end three into it. -/
theorem decodeFrom_ok_of_padded (enc : base64.Encoding) (srcLen : Nat)
    (hpad : enc.padChar = some 61) (h61 : enc.decodeMap 61 = 0xff) (s : GoString)
    (hs : ∀ c ∈ s, enc.decodeMap c ≠ 0xff) :
    ∀ (dbuf : List Nat) (si : Nat), dbuf.length ≤ 3 →
      ((dbuf.length + s.length) % 4 = 2 →
        ∃ out, enc.decodeFrom srcLen dbuf (s ++ [61, 61]) si = .ok out) ∧
      ((dbuf.length + s.length) % 4 = 3 →
        ∃ out, enc.decodeFrom srcLen dbuf (s ++ [61]) si = .ok out) := by
  induction s with
  | nil =>
    intro dbuf si hd
    constructor
    · intro h
      have hl : dbuf.length = 2 := by simp at h; omega
      exact ⟨base64.quantumBytes dbuf,
        by simp [base64.Encoding.decodeFrom, base64.skipNewlines, hpad, h61, hl]⟩
    · intro h
      have hl : dbuf.length = 3 := by simp at h; omega
      exact ⟨base64.quantumBytes dbuf,
        by simp [base64.Encoding.decodeFrom, base64.skipNewlines, hpad, h61, hl]⟩
  | cons c s ih =>
    intro dbuf si hd
    have hc : enc.decodeMap c ≠ 0xff := hs c (by simp)
    have hs2 : ∀ c ∈ s, enc.decodeMap c ≠ 0xff := fun y hy => hs y (by simp [hy])
    have e2 : (c :: s) ++ [61, 61] = c :: (s ++ [61, 61]) := rfl
    have e1 : (c :: s) ++ [61] = c :: (s ++ [61]) := rfl
    by_cases hl : dbuf.length = 3
    · have ih0 := ih hs2 [] (si + 1) (by simp)
      constructor
      · intro h
        obtain ⟨out, ho⟩ := ih0.1 (by simp at h ⊢; omega)
        refine ⟨base64.quantumBytes (dbuf ++ [enc.decodeMap c]) ++ out, ?_⟩
        rw [e2]
        simp only [base64.Encoding.decodeFrom]
        rw [if_pos hc, if_pos hl, ho]
      · intro h
        obtain ⟨out, ho⟩ := ih0.2 (by simp at h ⊢; omega)
        refine ⟨base64.quantumBytes (dbuf ++ [enc.decodeMap c]) ++ out, ?_⟩
        rw [e1]
        simp only [base64.Encoding.decodeFrom]
        rw [if_pos hc, if_pos hl, ho]
    · have ih1 := ih hs2 (dbuf ++ [enc.decodeMap c]) (si + 1) (by simp; omega)
      constructor
      · intro h
        obtain ⟨out, ho⟩ := ih1.1 (by simp at h ⊢; omega)
        refine ⟨out, ?_⟩
        rw [e2]
        simp only [base64.Encoding.decodeFrom]
        rw [if_pos hc, if_neg hl, ho]
      · intro h
        obtain ⟨out, ho⟩ := ih1.2 (by simp at h ⊢; omega)
        refine ⟨out, ?_⟩
        rw [e1]
        simp only [base64.Encoding.decodeFrom]
        rw [if_pos hc, if_neg hl, ho]

theorem length_Repeat_byte (b : Nat) (n : Nat) : (strings.Repeat [b] n).length = n := by
  induction n with
  | zero => rfl
  | succ n ih => simp [strings.Repeat, ih, Nat.add_comm]

theorem lit_eq_sign : lit "=" = [61] := by decide

theorem lit_dash : lit "-" = [45] ∧ lit "+" = [43] ∧ lit "_" = [95] ∧ lit "/" = [47] := by
  decide

/-- The string that `base64UrlDecode` hands to `URLEncoding.DecodeString`. -/
theorem base64UrlDecode_eq (data : GoString) :
    extractClaimsFromJWT.base64UrlDecode data =
      base64.URLEncoding.DecodeString
        ((if data.length % 4 > 0 then data ++ strings.Repeat [61] (4 - data.length % 4)
          else data).map (fun c => if c = 95 then 47 else if c = 45 then 43 else c)) := by
  simp only [extractClaimsFromJWT.base64UrlDecode, lit_eq_sign, lit_dash.1, lit_dash.2.1,
    lit_dash.2.2.1, lit_dash.2.2.2]
  rw [ReplaceAll_byte 45 43 (by decide), ReplaceAll_byte 95 47 (by decide), List.map_map]
  congr 1
  apply List.map_congr_left
  intro c _
  by_cases h : c = 45
  · subst h; simp
  · simp [h]

/-- `URLEncoding.DecodeString` fails on every string with a `+` or a `/` in it. -/
theorem URLEncoding_DecodeString_error (data : GoString) (h : 43 ∈ data ∨ 47 ∈ data) :
    ∃ n, base64.URLEncoding.DecodeString data = .error (base64.CorruptInputError n) := by
  have hex : ∃ e, base64.URLEncoding.decodeFrom data.length [] data 0 = .error e := by
    rcases h with h | h
    · exact decodeFrom_error_of_mem base64.URLEncoding data.length 43
        URLEncoding_decodeMap_other.2.1 (by decide) (by decide) (by decide) data [] 0 h
    · exact decodeFrom_error_of_mem base64.URLEncoding data.length 47
        URLEncoding_decodeMap_other.2.2 (by decide) (by decide) (by decide) data [] 0 h
  obtain ⟨e, he⟩ := hex
  exact ⟨e, by simp only [base64.Encoding.DecodeString, he]⟩

/-- `URLEncoding.DecodeString` succeeds on letters and digits followed by the `=` that fill
the last quantum. -/
theorem URLEncoding_DecodeString_ok (s : GoString)
    (halnum : ∀ c ∈ s, (65 ≤ c ∧ c ≤ 90) ∨ (97 ≤ c ∧ c ≤ 122) ∨ (48 ≤ c ∧ c ≤ 57))
    (hlen : s.length % 4 = 2 ∨ s.length % 4 = 3) :
    ∃ out, base64.URLEncoding.DecodeString (s ++ strings.Repeat [61] (4 - s.length % 4)) =
      .ok out := by
  have hs : ∀ c ∈ s, base64.URLEncoding.decodeMap c ≠ 0xff := by
    intro c hc
    have ha := halnum c hc
    exact URLEncoding_decodeMap_alnum c (by omega) ha
  have hdec := fun (srcLen : Nat) => decodeFrom_ok_of_padded base64.URLEncoding srcLen rfl
    URLEncoding_decodeMap_other.1 s hs [] 0 (by simp)
  rcases hlen with h | h
  · have hr : strings.Repeat [61] (4 - s.length % 4) = [61, 61] := by rw [h]; rfl
    rw [hr]
    obtain ⟨out, ho⟩ := (hdec (s ++ [61, 61]).length).1 (by simpa using h)
    exact ⟨out, by simp only [base64.Encoding.DecodeString, ho]⟩
  · have hr : strings.Repeat [61] (4 - s.length % 4) = [61] := by rw [h]; rfl
    rw [hr]
    obtain ⟨out, ho⟩ := (hdec (s ++ [61]).length).2 (by simpa using h)
    exact ⟨out, by simp only [base64.Encoding.DecodeString, ho]⟩

/-- Where the code and the removal of a prefix agree: on a value that starts with `Bearer `,
and on a value without `Bearer ` in it. -/
theorem Replace_eq_TrimPrefix (v : GoString)
    (h : strings.HasPrefix v (lit "Bearer ") = true ∨
      strings.Contains v (lit "Bearer ") = false) :
    strings.Replace v (lit "Bearer ") (lit "") 1 = strings.TrimPrefix v (lit "Bearer ") := by
  rcases h with h | h
  · obtain ⟨t, ht⟩ := (HasPrefix_iff v (lit "Bearer ")).1 h
    subst ht
    rw [ Replace_Bearer_prefix, strings.TrimPrefix, if_pos h, List.drop_left]
  · have hp : strings.HasPrefix v (lit "Bearer ") = false := by
      cases hp : strings.HasPrefix v (lit "Bearer ") with
      | false => rfl
      | true =>
        have hin : lit "Bearer " <:+: v := ((HasPrefix_iff v (lit "Bearer ")).1 hp).isInfix
        rw [(Contains_iff v (lit "Bearer ")).2 hin] at h
        cases h
    rw [Replace_of_not_Contains v _ _ 1 h]
    simp [strings.TrimPrefix, hp]

/-! ## The claims -/

/-- Claim C1, at a token the decoder rejects: the three-segment token whose payload segment is
the unpadded Base64URL encoding of the JSON object with `sub`
`6ba7b810-9dad-11d1-80b4-00c04fd430c8`, `scope` `read>write` and `exp` `9999999999`. The
segment has a `-` in it (at index 79, for the byte `>`). `base64UrlDecode` rewrites it to `+`
and then decodes with `URLEncoding`, whose alphabet has no `+`; so the decoder fails with the
payload-decode error before the JSON is looked at, whatever `json.Unmarshal` does. -/
theorem extractClaimsFromJWT_rejects_url_safe_payload
    (jsonUnmarshal : List Nat → Except GoString TokenClaims) :
    strings.Split (lit "eyJhbGciOiJub25lIn0.eyJzdWIiOiI2YmE3YjgxMC05ZGFkLTExZDEtODBiNC0wMGMwNGZkNDMwYzgiLCJzY29wZSI6InJlYWQ-d3JpdGUiLCJleHAiOjk5OTk5OTk5OTl9.x") (lit ".") =
        [lit "eyJhbGciOiJub25lIn0",
          lit "eyJzdWIiOiI2YmE3YjgxMC05ZGFkLTExZDEtODBiNC0wMGMwNGZkNDMwYzgiLCJzY29wZSI6InJlYWQ-d3JpdGUiLCJleHAiOjk5OTk5OTk5OTl9",
          lit "x"] ∧
      base64.RawURLEncoding.DecodeString
          (lit "eyJzdWIiOiI2YmE3YjgxMC05ZGFkLTExZDEtODBiNC0wMGMwNGZkNDMwYzgiLCJzY29wZSI6InJlYWQ-d3JpdGUiLCJleHAiOjk5OTk5OTk5OTl9") =
        .ok (lit "\x7b\"sub\":\"6ba7b810-9dad-11d1-80b4-00c04fd430c8\",\"scope\":\"read>write\",\"exp\":9999999999\x7d") ∧
      extractClaimsFromJWT jsonUnmarshal
          (lit "eyJhbGciOiJub25lIn0.eyJzdWIiOiI2YmE3YjgxMC05ZGFkLTExZDEtODBiNC0wMGMwNGZkNDMwYzgiLCJzY29wZSI6InJlYWQ-d3JpdGUiLCJleHAiOjk5OTk5OTk5OTl9.x") =
        .error (lit "invalid jwt, failed to decode payload: illegal base64 data at input byte 79") := by
  refine ⟨by decide, by rfl, by rfl⟩

/-- Claim C2: a token whose number of `.`-separated segments is not 3 is rejected with the
error `invalid jwt, failed to parse, found N parts`, where `N` is the number of segments, one
more than the number of `.` bytes in the token; neither the JSON decoder nor the content of the
segments plays a part. -/
theorem extractClaimsFromJWT_wrong_segment_count
    (jsonUnmarshal : List Nat → Except GoString TokenClaims) (tokenString : GoString)
    (h : (strings.Split tokenString (lit ".")).length ≠ 3) :
    extractClaimsFromJWT jsonUnmarshal tokenString =
        .error (lit "invalid jwt, failed to parse, found " ++
          itoa (strings.Split tokenString (lit ".")).length ++ lit " parts") ∧
      (strings.Split tokenString (lit ".")).length = tokenString.count 46 + 1 ∧
      (tokenString.count 46 ≠ 2) := by
  refine ⟨?_, length_Split_dot tokenString, ?_⟩
  · simp only [extractClaimsFromJWT]
    rw [if_pos h]
  · intro h2
    apply h
    rw [length_Split_dot, h2]

theorem extractClaimsFromJWT_wrong_segment_count_witness :
    (strings.Split (lit "a.b") (lit ".")).length ≠ 3 ∧
    extractClaimsFromJWT exampleUnmarshal (lit "a.b") =
      .error (lit "invalid jwt, failed to parse, found 2 parts") ∧
    extractClaimsFromJWT exampleUnmarshal (lit "") =
      .error (lit "invalid jwt, failed to parse, found 1 parts") ∧
    extractClaimsFromJWT exampleUnmarshal (lit "e30.e30.e30.e30") =
      .error (lit "invalid jwt, failed to parse, found 4 parts") :=
  ⟨by decide,
   (extractClaimsFromJWT_wrong_segment_count exampleUnmarshal (lit "a.b") (by decide)).1,
   (extractClaimsFromJWT_wrong_segment_count exampleUnmarshal (lit "") (by decide)).1,
   (extractClaimsFromJWT_wrong_segment_count exampleUnmarshal (lit "e30.e30.e30.e30")
    (by decide)).1⟩

/-- Claim C3, at a segment the payload decoder rejects: `eyJzY29wZSI6InJlYWQ_In0`, of length 23
(3 modulo 4), over the URL-safe alphabet, with a `_` at index 19. `base64UrlDecode` appends one
`=`, rewrites the `_` to `/` and decodes the result, `eyJzY29wZSI6InJlYWQ/In0=`, with
`URLEncoding`, which fails at byte 19; standard Base64 decoding of that same string gives the
17 bytes of the JSON text with scope `read?`. -/
theorem base64UrlDecode_rejects_url_safe_segment :
    (lit "eyJzY29wZSI6InJlYWQ_In0").length % 4 = 3 ∧
      strings.ReplaceAll (strings.ReplaceAll
          (lit "eyJzY29wZSI6InJlYWQ_In0" ++ strings.Repeat (lit "=") 1) (lit "-") (lit "+"))
          (lit "_") (lit "/") = lit "eyJzY29wZSI6InJlYWQ/In0=" ∧
      base64.StdEncoding.DecodeString (lit "eyJzY29wZSI6InJlYWQ/In0=") =
        .ok (lit "\x7b\"scope\":\"read?\"\x7d") ∧
      extractClaimsFromJWT.base64UrlDecode (lit "eyJzY29wZSI6InJlYWQ_In0") =
        .error (lit "illegal base64 data at input byte 19") := by
  refine ⟨by decide, by decide, by rfl, by rfl⟩

/-- Claim C4: on a context that carries a scope string `s`, `HasAllScopes` is true exactly when
every required scope is a contiguous part (a substring) of `s`, so it is true for the empty list;
on a context without a scope string it is false for every list, the empty one included. -/
theorem HasAllScopes_iff_all_substrings (ctx : Context) (required : List GoString) :
    (∀ s : GoString, ctx.Value .scopesKey = some (.string s) →
        (HasAllScopes ctx required = true ↔ ∀ x ∈ required, x <:+: s)) ∧
      ((∀ s : GoString, ctx.Value .scopesKey ≠ some (.string s)) →
        HasAllScopes ctx required = false) := by
  constructor
  · intro s hs
    simp only [HasAllScopes, hs]
    exact HasAllScopes_loop_iff s required
  · intro hno
    cases hv : ctx.Value .scopesKey with
    | none => simp [HasAllScopes, hv]
    | some v =>
      cases v with
      | string s => exact absurd hv (hno s)
      | tokenClaims p => simp [HasAllScopes, hv]
      | other id => simp [HasAllScopes, hv]

theorem HasAllScopes_iff_all_substrings_witness :
    HasAllScopes (.WithValue .Background .scopesKey (.string (lit "read:all"))) [lit "read"] =
      true ∧
    HasAllScopes (.WithValue .Background .scopesKey (.string (lit "preread"))) [lit "read"] =
      true ∧
    HasAllScopes (.WithValue .Background .scopesKey (.string (lit "read write"))) [] = true ∧
    ¬ HasAllScopes (.WithValue .Background .scopesKey (.string (lit "read write")))
      [lit "read", lit "delete"] = true ∧
    HasAllScopes .Background [] = false :=
  ⟨((HasAllScopes_iff_all_substrings
      (.WithValue .Background .scopesKey (.string (lit "read:all"))) [lit "read"]).1
        (lit "read:all") rfl).2 (by decide),
   ((HasAllScopes_iff_all_substrings
      (.WithValue .Background .scopesKey (.string (lit "preread"))) [lit "read"]).1
        (lit "preread") rfl).2 (by decide),
   ((HasAllScopes_iff_all_substrings
      (.WithValue .Background .scopesKey (.string (lit "read write"))) []).1
        (lit "read write") rfl).2 (by decide),
   fun h => absurd (((HasAllScopes_iff_all_substrings
      (.WithValue .Background .scopesKey (.string (lit "read write")))
      [lit "read", lit "delete"]).1 (lit "read write") rfl).1 h) (by decide),
   (HasAllScopes_iff_all_substrings .Background []).2 (by intro s h; cases h)⟩

/-- Claim C5: on a context that carries a scope string `s`, `MatchedScopes` returns the required
scopes that are substrings of `s`, in the order of `required` and with its duplicates, and its
boolean says whether that list is non-empty; on a context without a scope string it returns the
empty list and false. -/
theorem MatchedScopes_eq_filter (ctx : Context) (required : List GoString) :
    (∀ s : GoString, ctx.Value .scopesKey = some (.string s) →
        (MatchedScopes ctx required).1 = required.filter (fun x => decide (x <:+: s)) ∧
        ((MatchedScopes ctx required).2 = true ↔ (MatchedScopes ctx required).1 ≠ [])) ∧
      ((∀ s : GoString, ctx.Value .scopesKey ≠ some (.string s)) →
        MatchedScopes ctx required = ([], false)) := by
  constructor
  · intro s hs
    simp only [MatchedScopes, hs, MatchedScopes_loop_eq, List.nil_append]
    simp [List.length_pos]
  · intro hno
    cases hv : ctx.Value .scopesKey with
    | none => simp [MatchedScopes, hv]
    | some v =>
      cases v with
      | string s => exact absurd hv (hno s)
      | tokenClaims p => simp [MatchedScopes, hv]
      | other id => simp [MatchedScopes, hv]

theorem MatchedScopes_eq_filter_witness :
    (MatchedScopes (.WithValue .Background .scopesKey (.string (lit "read write")))
        [lit "write", lit "delete", lit "read", lit "write"]).1 =
      [lit "write", lit "read", lit "write"] ∧
    (MatchedScopes (.WithValue .Background .scopesKey (.string (lit "read write")))
        [lit "write", lit "delete", lit "read", lit "write"]).2 = true ∧
    MatchedScopes .Background [lit "read"] = ([], false) :=
  ⟨((MatchedScopes_eq_filter
      (.WithValue .Background .scopesKey (.string (lit "read write")))
      [lit "write", lit "delete", lit "read", lit "write"]).1 (lit "read write") rfl).1.trans
        (by decide),
   ((MatchedScopes_eq_filter
      (.WithValue .Background .scopesKey (.string (lit "read write")))
      [lit "write", lit "delete", lit "read", lit "write"]).1 (lit "read write") rfl).2.2
        (by decide),
   (MatchedScopes_eq_filter .Background [lit "read"]).2 (by intro s h; cases h)⟩

/-- Claim C6, at a header value that does not start with `Bearer ` and is changed all the same:
`x.Bearer e30.y`. `strings.Replace(v, "Bearer ", "", 1)` removes the first `Bearer ` wherever
it stands, so the token decoded and stored is `x.e30.y`, whose payload segment `e30` encodes the
empty JSON object: the wrapped handler is called when `json.Unmarshal` accepts that object. The
unchanged value has the payload segment `Bearer e30`, which is not Base64. -/
theorem JWTAuthMiddleware_removes_inner_Bearer
    (jsonUnmarshal : List Nat → Except GoString TokenClaims) :
    strings.HasPrefix (lit "x.Bearer e30.y") (lit "Bearer ") = false ∧
      strings.Replace (lit "x.Bearer e30.y") (lit "Bearer ") (lit "") 1 = lit "x.e30.y" ∧
      JWTAuthMiddleware jsonUnmarshal id (lit "Authorization")
          (exampleRequest (lit "x.Bearer e30.y")) =
        (match jsonUnmarshal (lit "\x7b\x7d") with
        | .error err =>
          .WriteErrorResponse 401
            (lit "invalid jwt: invalid jwt, failed to unmarshal payload: " ++ err)
        | .ok claims =>
          .ServeHTTP ⟨[(lit "Authorization", [lit "x.Bearer e30.y"])],
            .WithValue (.WithValue (.WithValue .Background .assertionTokenClaimsKey
              (.tokenClaims (some claims))) .jwtToken (.string (lit "x.e30.y")))
              .scopesKey (.string claims.Scope)⟩) ∧
      extractClaimsFromJWT jsonUnmarshal (lit "x.Bearer e30.y") =
        .error (lit "invalid jwt, failed to decode payload: illegal base64 data at input byte 6") := by
  refine ⟨by decide, by decide, ?_, by rfl⟩
  have h : JWTAuthMiddleware jsonUnmarshal id (lit "Authorization")
      (exampleRequest (lit "x.Bearer e30.y")) =
      match extractClaimsFromJWT jsonUnmarshal (lit "x.e30.y") with
      | .error err => .WriteErrorResponse 401 (lit "invalid jwt: " ++ err)
      | .ok claims =>
        .ServeHTTP ⟨[(lit "Authorization", [lit "x.Bearer e30.y"])],
          .WithValue (.WithValue (.WithValue .Background .assertionTokenClaimsKey
            (.tokenClaims (some claims))) .jwtToken (.string (lit "x.e30.y")))
            .scopesKey (.string claims.Scope)⟩ := by
    rfl
  rw [h]
  have h2 : extractClaimsFromJWT jsonUnmarshal (lit "x.e30.y") =
      match jsonUnmarshal (lit "\x7b\x7d") with
      | .error err => .error (lit "invalid jwt, failed to unmarshal payload: " ++ err)
      | .ok claims => .ok claims := by
    rfl
  rw [h2]
  cases jsonUnmarshal (lit "\x7b\x7d") <;> rfl

/-- Claim C7: when the configured header is absent from the request, or is there without a
value, or its first value is empty, the handler ends in
`WriteErrorResponse(w, 401, "missing header: " + header)`; it therefore does not call the
wrapped handler and derives no context. -/
theorem JWTAuthMiddleware_missing_header
    (jsonUnmarshal : List Nat → Except GoString TokenClaims) (canonical : GoString → GoString)
    (header : GoString) (r : Request)
    (h : r.Header.lookup (canonical header) = none ∨
      r.Header.lookup (canonical header) = some [] ∨
      ∃ vs, r.Header.lookup (canonical header) = some (lit "" :: vs)) :
    JWTAuthMiddleware jsonUnmarshal canonical header r =
        .WriteErrorResponse 401 (lit "missing header: " ++ header) ∧
      ∀ r2 : Request, JWTAuthMiddleware jsonUnmarshal canonical header r ≠ .ServeHTTP r2 := by
  have hget : Header.Get canonical r.Header header = lit "" := by
    rcases h with h | h | ⟨vs, h⟩ <;> simp [Header.Get, h]
  have hact : JWTAuthMiddleware jsonUnmarshal canonical header r =
      .WriteErrorResponse 401 (lit "missing header: " ++ header) := by
    simp only [JWTAuthMiddleware, hget, StatusUnauthorized]
    rfl
  refine ⟨hact, ?_⟩
  intro r2 h2
  rw [hact] at h2
  cases h2

theorem JWTAuthMiddleware_missing_header_witness :
    JWTAuthMiddleware (fun _ => .error []) id (lit "Authorization")
        ⟨[(lit "Accept", [lit "text/plain"])], .Background⟩ =
      .WriteErrorResponse 401 (lit "missing header: Authorization") ∧
    JWTAuthMiddleware (fun _ => .error []) id (lit "Authorization")
        ⟨[(lit "Authorization", [lit "", lit "a.e30.c"])], .Background⟩ =
      .WriteErrorResponse 401 (lit "missing header: Authorization") :=
  ⟨(JWTAuthMiddleware_missing_header (fun _ => .error []) id (lit "Authorization")
      ⟨[(lit "Accept", [lit "text/plain"])], .Background⟩ (Or.inl (by decide))).1,
   (JWTAuthMiddleware_missing_header (fun _ => .error []) id (lit "Authorization")
      ⟨[(lit "Authorization", [lit "", lit "a.e30.c"])], .Background⟩
      (Or.inr (Or.inr ⟨[lit "a.e30.c"], by decide⟩))).1⟩

/-- The error branch of the handler, as the code has it: when the header value is not empty and
`extractClaimsFromJWT` fails with the error `e` on what `strings.Replace` leaves of the value
(the value without its first `Bearer `, wherever that stands), the handler ends in
`WriteErrorResponse(w, 401, "invalid jwt: " + e)` and does not call the wrapped handler. -/
theorem JWTAuthMiddleware_invalid_jwt
    (jsonUnmarshal : List Nat → Except GoString TokenClaims) (canonical : GoString → GoString)
    (header : GoString) (r : Request) (e : GoString)
    (hv : Header.Get canonical r.Header header ≠ lit "")
    (he : extractClaimsFromJWT jsonUnmarshal
      (strings.Replace (Header.Get canonical r.Header header) (lit "Bearer ") (lit "") 1) =
        .error e) :
    JWTAuthMiddleware jsonUnmarshal canonical header r =
        .WriteErrorResponse 401 (lit "invalid jwt: " ++ e) ∧
      ∀ r2 : Request, JWTAuthMiddleware jsonUnmarshal canonical header r ≠ .ServeHTTP r2 := by
  have hact := JWTAuthMiddleware_invalid_jwt_aux jsonUnmarshal canonical header r e hv he
  refine ⟨hact, ?_⟩
  intro r2 h2
  rw [hact] at h2
  cases h2

theorem JWTAuthMiddleware_invalid_jwt_witness :
    JWTAuthMiddleware (fun _ => .error []) id (lit "Authorization")
        ⟨[(lit "Authorization", [lit "Bearer a.b"])], .Background⟩ =
      .WriteErrorResponse 401
        (lit "invalid jwt: " ++ lit "invalid jwt, failed to parse, found 2 parts") :=
  (JWTAuthMiddleware_invalid_jwt (fun _ => .error []) id (lit "Authorization")
    ⟨[(lit "Authorization", [lit "Bearer a.b"])], .Background⟩
    (lit "invalid jwt, failed to parse, found 2 parts") (by decide) (by rfl)).1

/-- Claim C8, at a request on which the wrapped handler is called although the prefix-stripped
token fails to decode: the header value `x.e30Bearer .y`. It does not start with `Bearer `, so
the prefix-stripped token is the value itself, and on it `extractClaimsFromJWT` fails (its
payload segment `e30Bearer ` has a space at index 9). The code removes the `Bearer ` inside the
value and decodes `x.e30.y`, whose payload segment encodes the empty JSON object: where
`json.Unmarshal` accepts that object, as it does, the handler does not answer 401 but calls the
wrapped handler. -/
theorem JWTAuthMiddleware_serves_undecodable_value
    (jsonUnmarshal : List Nat → Except GoString TokenClaims) :
    strings.TrimPrefix (lit "x.e30Bearer .y") (lit "Bearer ") = lit "x.e30Bearer .y" ∧
      extractClaimsFromJWT jsonUnmarshal (lit "x.e30Bearer .y") =
        .error (lit "invalid jwt, failed to decode payload: illegal base64 data at input byte 9") ∧
      JWTAuthMiddleware jsonUnmarshal id (lit "Authorization")
          (exampleRequest (lit "x.e30Bearer .y")) =
        (match jsonUnmarshal (lit "\x7b\x7d") with
        | .error err =>
          .WriteErrorResponse 401
            (lit "invalid jwt: invalid jwt, failed to unmarshal payload: " ++ err)
        | .ok claims =>
          .ServeHTTP ⟨[(lit "Authorization", [lit "x.e30Bearer .y"])],
            .WithValue (.WithValue (.WithValue .Background .assertionTokenClaimsKey
              (.tokenClaims (some claims))) .jwtToken (.string (lit "x.e30.y")))
              .scopesKey (.string claims.Scope)⟩) ∧
      JWTAuthMiddleware exampleUnmarshal id (lit "Authorization")
          (exampleRequest (lit "x.e30Bearer .y")) =
        .ServeHTTP ⟨[(lit "Authorization", [lit "x.e30Bearer .y"])],
          .WithValue (.WithValue (.WithValue .Background .assertionTokenClaimsKey
            (.tokenClaims (some ⟨List.replicate 16 0, lit "", 0⟩))) .jwtToken
            (.string (lit "x.e30.y"))) .scopesKey (.string (lit ""))⟩ := by
  refine ⟨by decide, by rfl, ?_, by rfl⟩
  have h : JWTAuthMiddleware jsonUnmarshal id (lit "Authorization")
      (exampleRequest (lit "x.e30Bearer .y")) =
      match extractClaimsFromJWT jsonUnmarshal (lit "x.e30.y") with
      | .error err => .WriteErrorResponse 401 (lit "invalid jwt: " ++ err)
      | .ok claims =>
        .ServeHTTP ⟨[(lit "Authorization", [lit "x.e30Bearer .y"])],
          .WithValue (.WithValue (.WithValue .Background .assertionTokenClaimsKey
            (.tokenClaims (some claims))) .jwtToken (.string (lit "x.e30.y")))
            .scopesKey (.string claims.Scope)⟩ := by
    rfl
  rw [h]
  have h2 : extractClaimsFromJWT jsonUnmarshal (lit "x.e30.y") =
      match jsonUnmarshal (lit "\x7b\x7d") with
      | .error err => .error (lit "invalid jwt, failed to unmarshal payload: " ++ err)
      | .ok claims => .ok claims := by
    rfl
  rw [h2]
  cases jsonUnmarshal (lit "\x7b\x7d") <;> rfl

/-- The context that the handler hands over, as the code has it: when the handler calls the
wrapped handler, `GetJWTFromContext` gives what `strings.Replace` leaves of the header value
(the value without its first `Bearer `, wherever that stands), `GetTokenClaims` gives the
claims that `extractClaimsFromJWT` decodes from that token, and the value under `scopesKey`,
which `HasAllScopes` and `MatchedScopes` read, is the `Scope` of those claims; headers and the
values under other keys are those of the incoming request. In every other case the handler
ends in a 401 error response, so the wrapped handler is not called and no context is
derived. -/
theorem JWTAuthMiddleware_context_consistent
    (jsonUnmarshal : List Nat → Except GoString TokenClaims) (canonical : GoString → GoString)
    (header : GoString) (r : Request) :
    (∀ r2 : Request, JWTAuthMiddleware jsonUnmarshal canonical header r = .ServeHTTP r2 →
      ∃ claims : TokenClaims,
        GetJWTFromContext r2.Context =
          strings.Replace (Header.Get canonical r.Header header) (lit "Bearer ") (lit "") 1 ∧
        extractClaimsFromJWT jsonUnmarshal (GetJWTFromContext r2.Context) = .ok claims ∧
        GetTokenClaims r2.Context = some claims ∧
        r2.Context.Value .scopesKey = some (.string claims.Scope) ∧
        (∀ required, HasAllScopes r2.Context required =
          HasAllScopes.loop claims.Scope required) ∧
        (∀ required, (MatchedScopes r2.Context required).1 =
          MatchedScopes.loop claims.Scope [] required) ∧
        r2.Header = r.Header ∧
        ∀ id, r2.Context.Value (.other id) = r.Context.Value (.other id)) ∧
    ((∃ r2 : Request, JWTAuthMiddleware jsonUnmarshal canonical header r = .ServeHTTP r2) ∨
      ∃ message : GoString, JWTAuthMiddleware jsonUnmarshal canonical header r =
        .WriteErrorResponse 401 message) := by
  by_cases hv : Header.Get canonical r.Header header = lit ""
  · have hact : JWTAuthMiddleware jsonUnmarshal canonical header r =
        .WriteErrorResponse 401 (lit "missing header: " ++ header) := by
      simp only [JWTAuthMiddleware, hv, StatusUnauthorized]
      rfl
    refine ⟨?_, Or.inr ⟨_, hact⟩⟩
    intro r2 h2
    rw [hact] at h2
    cases h2
  · cases he : extractClaimsFromJWT jsonUnmarshal
        (strings.Replace (Header.Get canonical r.Header header) (lit "Bearer ") (lit "") 1) with
    | error e =>
      have hact := (JWTAuthMiddleware_invalid_jwt_aux jsonUnmarshal canonical header r e hv he)
      refine ⟨?_, Or.inr ⟨_, hact⟩⟩
      intro r2 h2
      rw [hact] at h2
      cases h2
    | ok claims =>
      have hact : JWTAuthMiddleware jsonUnmarshal canonical header r =
          .ServeHTTP (r.WithContext
            (.WithValue (.WithValue (.WithValue r.Context .assertionTokenClaimsKey
              (.tokenClaims (some claims))) .jwtToken
              (.string (strings.Replace (Header.Get canonical r.Header header)
                (lit "Bearer ") (lit "") 1))) .scopesKey (.string claims.Scope))) := by
        simp only [JWTAuthMiddleware, if_neg hv, he]
      refine ⟨?_, Or.inl ⟨_, hact⟩⟩
      intro r2 h2
      rw [hact] at h2
      injection h2 with h2
      subst h2
      refine ⟨claims, ?_, ?_, ?_, ?_, ?_, ?_, ?_, ?_⟩
      · simp [GetJWTFromContext, Request.Context, Request.WithContext, Context.Value]
      · simpa [GetJWTFromContext, Request.Context, Request.WithContext, Context.Value] using he
      · simp [GetTokenClaims, Request.Context, Request.WithContext, Context.Value]
      · simp [Request.Context, Request.WithContext, Context.Value]
      · intro required
        simp [HasAllScopes, Request.Context, Request.WithContext, Context.Value]
      · intro required
        simp [MatchedScopes, Request.Context, Request.WithContext, Context.Value]
      · simp [Request.WithContext]
      · intro id
        simp [Request.Context, Request.WithContext, Context.Value]

theorem JWTAuthMiddleware_context_consistent_witness :
    JWTAuthMiddleware exampleUnmarshal id (lit "Authorization")
        (exampleRequest (lit "Bearer " ++ exampleToken)) =
      .ServeHTTP ⟨[(lit "Authorization", [lit "Bearer " ++ exampleToken])], exampleContext⟩ ∧
    ∃ claims : TokenClaims,
      GetJWTFromContext exampleContext =
        strings.Replace (lit "Bearer " ++ exampleToken) (lit "Bearer ") (lit "") 1 ∧
      extractClaimsFromJWT exampleUnmarshal (GetJWTFromContext exampleContext) = .ok claims ∧
      GetTokenClaims exampleContext = some claims ∧
      exampleContext.Value .scopesKey = some (.string claims.Scope) :=
  ⟨by rfl,
   ((JWTAuthMiddleware_context_consistent exampleUnmarshal id (lit "Authorization")
      (exampleRequest (lit "Bearer " ++ exampleToken))).1
      ⟨[(lit "Authorization", [lit "Bearer " ++ exampleToken])], exampleContext⟩
      (by rfl)).imp (fun _ hc => ⟨hc.1, hc.2.1, hc.2.2.1, hc.2.2.2.1⟩)⟩

/-- Claim C9, at a request on which the stored token is not the prefix-stripped one: the header
value `xBearer .e30.y`. It does not start with `Bearer `, so the prefix-stripped token is the
value itself, which has three segments and the payload segment `e30`, the encoding of the empty
JSON object. The code removes the `Bearer ` inside the value: it calls the wrapped handler with
a context on which `GetJWTFromContext` returns `x.e30.y`, and that is not the prefix-stripped
token. -/
theorem JWTAuthMiddleware_stores_value_without_inner_Bearer
    (jsonUnmarshal : List Nat → Except GoString TokenClaims) :
    strings.TrimPrefix (lit "xBearer .e30.y") (lit "Bearer ") = lit "xBearer .e30.y" ∧
      JWTAuthMiddleware jsonUnmarshal id (lit "Authorization")
          (exampleRequest (lit "xBearer .e30.y")) =
        (match jsonUnmarshal (lit "\x7b\x7d") with
        | .error err =>
          .WriteErrorResponse 401
            (lit "invalid jwt: invalid jwt, failed to unmarshal payload: " ++ err)
        | .ok claims =>
          .ServeHTTP ⟨[(lit "Authorization", [lit "xBearer .e30.y"])],
            .WithValue (.WithValue (.WithValue .Background .assertionTokenClaimsKey
              (.tokenClaims (some claims))) .jwtToken (.string (lit "x.e30.y")))
              .scopesKey (.string claims.Scope)⟩) ∧
      JWTAuthMiddleware exampleUnmarshal id (lit "Authorization")
          (exampleRequest (lit "xBearer .e30.y")) =
        .ServeHTTP ⟨[(lit "Authorization", [lit "xBearer .e30.y"])],
          .WithValue (.WithValue (.WithValue .Background .assertionTokenClaimsKey
            (.tokenClaims (some ⟨List.replicate 16 0, lit "", 0⟩))) .jwtToken
            (.string (lit "x.e30.y"))) .scopesKey (.string (lit ""))⟩ ∧
      GetJWTFromContext
          (.WithValue (.WithValue (.WithValue .Background .assertionTokenClaimsKey
            (.tokenClaims (some ⟨List.replicate 16 0, lit "", 0⟩))) .jwtToken
            (.string (lit "x.e30.y"))) .scopesKey (.string (lit ""))) = lit "x.e30.y" ∧
      lit "x.e30.y" ≠ strings.TrimPrefix (lit "xBearer .e30.y") (lit "Bearer ") := by
  refine ⟨by decide, ?_, by rfl, by rfl, by decide⟩
  have h : JWTAuthMiddleware jsonUnmarshal id (lit "Authorization")
      (exampleRequest (lit "xBearer .e30.y")) =
      match extractClaimsFromJWT jsonUnmarshal (lit "x.e30.y") with
      | .error err => .WriteErrorResponse 401 (lit "invalid jwt: " ++ err)
      | .ok claims =>
        .ServeHTTP ⟨[(lit "Authorization", [lit "xBearer .e30.y"])],
          .WithValue (.WithValue (.WithValue .Background .assertionTokenClaimsKey
            (.tokenClaims (some claims))) .jwtToken (.string (lit "x.e30.y")))
            .scopesKey (.string claims.Scope)⟩ := by
    rfl
  rw [h]
  have h2 : extractClaimsFromJWT jsonUnmarshal (lit "x.e30.y") =
      match jsonUnmarshal (lit "\x7b\x7d") with
      | .error err => .error (lit "invalid jwt, failed to unmarshal payload: " ++ err)
      | .ok claims => .ok claims := by
    rfl
  rw [h2]
  cases jsonUnmarshal (lit "\x7b\x7d") <;> rfl

/-- Claim C10: the result of the decoder does not depend on the header and signature segments.
For every middle part `p` and all `.`-free `h1`, `h2`, `s1`, `s2`, the tokens `h1.p.s1` and
`h2.p.s2` give the same claims or the same error; when `p` is `.`-free too, that result is the
one computed from `p` alone. -/
theorem extractClaimsFromJWT_ignores_header_and_signature
    (jsonUnmarshal : List Nat → Except GoString TokenClaims) (p h1 h2 s1 s2 : GoString)
    (hh1 : 46 ∉ h1) (hh2 : 46 ∉ h2) (hs1 : 46 ∉ s1) (hs2 : 46 ∉ s2) :
    extractClaimsFromJWT jsonUnmarshal (h1 ++ lit "." ++ p ++ lit "." ++ s1) =
      extractClaimsFromJWT jsonUnmarshal (h2 ++ lit "." ++ p ++ lit "." ++ s2) := by
  apply extractClaimsFromJWT_congr
  · rw [length_Split_dot, length_Split_dot, token_eq, token_eq]
    simp [List.count_eq_zero_of_not_mem hh1, List.count_eq_zero_of_not_mem hh2,
      List.count_eq_zero_of_not_mem hs1, List.count_eq_zero_of_not_mem hs2]
  · rw [token_eq, token_eq, strings.Split, strings.Split, lit_dot,
      splitFrom_byte_prefix 46 h1 _ hh1, splitFrom_byte_prefix 46 h2 _ hh2,
      getD_one_cons, getD_one_cons, head_splitFrom_byte 46 p s1 s2 []]

theorem extractClaimsFromJWT_ignores_header_and_signature_witness :
    extractClaimsFromJWT exampleUnmarshal
        (lit "eyJhbGciOiJub25lIn0" ++ lit "." ++ lit "e30" ++ lit "." ++ lit "x") =
      extractClaimsFromJWT exampleUnmarshal
        (lit "" ++ lit "." ++ lit "e30" ++ lit "." ++ lit "c2lnbmF0dXJl") :=
  extractClaimsFromJWT_ignores_header_and_signature exampleUnmarshal (lit "e30")
    (lit "eyJhbGciOiJub25lIn0") (lit "") (lit "x") (lit "c2lnbmF0dXJl")
    (by decide) (by decide) (by decide) (by decide)

/-- Claim C11: the decoder checks nothing beyond the segment count, the Base64 decoding and the
JSON parsing. For every token of three segments whose payload segment `base64UrlDecode` decodes
to bytes from which `json.Unmarshal` fills in the claims `c`, the decoder returns exactly `c`,
whatever `c.Exp` is; and a request whose header value, with its `Bearer ` removed, is that token
makes the handler call the wrapped handler with `c` in the context. -/
theorem extractClaimsFromJWT_no_expiry_check
    (jsonUnmarshal : List Nat → Except GoString TokenClaims) (canonical : GoString → GoString)
    (header tokenString : GoString) (payload : List Nat) (c : TokenClaims) (r : Request)
    (h3 : (strings.Split tokenString (lit ".")).length = 3)
    (hd : extractClaimsFromJWT.base64UrlDecode
      ((strings.Split tokenString (lit ".")).getD 1 []) = .ok payload)
    (hu : jsonUnmarshal payload = .ok c) :
    extractClaimsFromJWT jsonUnmarshal tokenString = .ok c ∧
      (Header.Get canonical r.Header header ≠ lit "" →
        strings.Replace (Header.Get canonical r.Header header) (lit "Bearer ") (lit "") 1 =
          tokenString →
        JWTAuthMiddleware jsonUnmarshal canonical header r =
          .ServeHTTP (r.WithContext
            (.WithValue (.WithValue (.WithValue r.Context .assertionTokenClaimsKey
              (.tokenClaims (some c))) .jwtToken (.string tokenString))
              .scopesKey (.string c.Scope)))) := by
  have hok : extractClaimsFromJWT jsonUnmarshal tokenString = .ok c := by
    rw [extractClaimsFromJWT_of_decoded jsonUnmarshal tokenString payload h3 hd, hu]
  refine ⟨hok, ?_⟩
  intro hv ht
  rw [← ht] at hok
  rw [JWTAuthMiddleware_of_ok jsonUnmarshal canonical header r c hv hok, ht]

theorem extractClaimsFromJWT_no_expiry_check_witness :
    extractClaimsFromJWT furtherUnmarshal (lit "x.eyJleHAiOi0xfQ.y") =
      .ok ⟨List.replicate 16 0, lit "", -1⟩ ∧
    JWTAuthMiddleware furtherUnmarshal id (lit "Authorization")
        (exampleRequest (lit "Bearer x.eyJleHAiOjF9.y")) =
      .ServeHTTP ((exampleRequest (lit "Bearer x.eyJleHAiOjF9.y")).WithContext
        (.WithValue (.WithValue (.WithValue .Background .assertionTokenClaimsKey
          (.tokenClaims (some ⟨List.replicate 16 0, lit "", 1⟩))) .jwtToken
          (.string (lit "x.eyJleHAiOjF9.y"))) .scopesKey (.string (lit "")))) :=
  ⟨(extractClaimsFromJWT_no_expiry_check furtherUnmarshal id (lit "Authorization")
      (lit "x.eyJleHAiOi0xfQ.y") (lit "\x7b\"exp\":-1\x7d") ⟨List.replicate 16 0, lit "", -1⟩
      (exampleRequest (lit "Bearer x.eyJleHAiOi0xfQ.y")) (by decide) (by rfl) (by rfl)).1,
   (extractClaimsFromJWT_no_expiry_check furtherUnmarshal id (lit "Authorization")
      (lit "x.eyJleHAiOjF9.y") (lit "\x7b\"exp\":1\x7d") ⟨List.replicate 16 0, lit "", 1⟩
      (exampleRequest (lit "Bearer x.eyJleHAiOjF9.y")) (by decide) (by rfl) (by rfl)).2
      (by decide) (by decide)⟩

/-- Claim C12, refuted as it is stated: a token of three segments whose payload segment
decodes to the JSON object with the one member `sub` of value
`x6ba7b810-9dad-11d1-80b4-00c04fd430c8x`. That string of 38 bytes is not a UUID string, yet
`ParseBytes`, to which `json.Unmarshal` hands it, drops the first and the last byte of every
38-byte string unread and parses the rest: the decoder returns claims with the subject
`6ba7b810-9dad-11d1-80b4-00c04fd430c8` and no payload-parse error. -/
theorem extractClaimsFromJWT_accepts_non_uuid_sub :
    (lit "x6ba7b810-9dad-11d1-80b4-00c04fd430c8x").length = 38 ∧
      uuid.ParseBytes quotePlain (lit "x6ba7b810-9dad-11d1-80b4-00c04fd430c8x") =
        .ok [0x6b, 0xa7, 0xb8, 0x10, 0x9d, 0xad, 0x11, 0xd1, 0x80, 0xb4, 0x00, 0xc0, 0x4f, 0xd4,
          0x30, 0xc8] ∧
      extractClaimsFromJWT.base64UrlDecode
          (lit "eyJzdWIiOiJ4NmJhN2I4MTAtOWRhZC0xMWQxLTgwYjQtMDBjMDRmZDQzMGM4eCJ9") =
        .ok (lit "\x7b\"sub\":\"x6ba7b810-9dad-11d1-80b4-00c04fd430c8x\"\x7d") ∧
      extractClaimsFromJWT (subMemberUnmarshal (lit "x6ba7b810-9dad-11d1-80b4-00c04fd430c8x"))
          (lit "eyJhbGciOiJub25lIn0.eyJzdWIiOiJ4NmJhN2I4MTAtOWRhZC0xMWQxLTgwYjQtMDBjMDRmZDQzMGM4eCJ9.c2ln") =
        .ok ⟨[0x6b, 0xa7, 0xb8, 0x10, 0x9d, 0xad, 0x11, 0xd1, 0x80, 0xb4, 0x00, 0xc0, 0x4f, 0xd4,
          0x30, 0xc8], lit "", 0⟩ := by
  refine ⟨by decide, by rfl, by rfl, by rfl⟩

/-- Claim C12, as amended: for every token of three segments whose payload segment
`base64UrlDecode` decodes to bytes on which `json.Unmarshal` returns an error `e`, the decoder
returns no claims and fails with `invalid jwt, failed to unmarshal payload: ` followed by `e`.
The parse failure is that of `json.Unmarshal` and of the `UnmarshalText` of `uuid.UUID` behind
it, not that of every `sub` that is not a UUID string. -/
theorem extractClaimsFromJWT_unmarshal_error
    (jsonUnmarshal : List Nat → Except GoString TokenClaims) (tokenString : GoString)
    (payload : List Nat) (e : GoString)
    (h3 : (strings.Split tokenString (lit ".")).length = 3)
    (hd : extractClaimsFromJWT.base64UrlDecode
      ((strings.Split tokenString (lit ".")).getD 1 []) = .ok payload)
    (hu : jsonUnmarshal payload = .error e) :
    extractClaimsFromJWT jsonUnmarshal tokenString =
      .error (lit "invalid jwt, failed to unmarshal payload: " ++ e) := by
  rw [extractClaimsFromJWT_of_decoded jsonUnmarshal tokenString payload h3 hd, hu]

theorem extractClaimsFromJWT_unmarshal_error_witness :
    extractClaimsFromJWT furtherUnmarshal (lit "x.ew.y") =
      .error (lit "invalid jwt, failed to unmarshal payload: " ++
        lit "unexpected end of JSON input") ∧
    extractClaimsFromJWT (subMemberUnmarshal (lit "abc")) (lit "x.eyJzdWIiOiJhYmMifQ.y") =
      .error (lit "invalid jwt, failed to unmarshal payload: " ++
        lit "invalid UUID length: 3") ∧
    extractClaimsFromJWT (subMemberUnmarshal (lit "6ba7b810+9dad-11d1-80b4-00c04fd430c8"))
        (lit "x.eyJzdWIiOiI2YmE3YjgxMCs5ZGFkLTExZDEtODBiNC0wMGMwNGZkNDMwYzgifQ.y") =
      .error (lit "invalid jwt, failed to unmarshal payload: " ++
        lit "invalid UUID format") :=
  ⟨extractClaimsFromJWT_unmarshal_error furtherUnmarshal (lit "x.ew.y") (lit "\x7b")
      (lit "unexpected end of JSON input") (by decide) (by rfl) (by rfl),
   extractClaimsFromJWT_unmarshal_error (subMemberUnmarshal (lit "abc"))
      (lit "x.eyJzdWIiOiJhYmMifQ.y") (lit "\x7b\"sub\":\"abc\"\x7d")
      (lit "invalid UUID length: 3") (by decide) (by rfl) (by rfl),
   extractClaimsFromJWT_unmarshal_error
      (subMemberUnmarshal (lit "6ba7b810+9dad-11d1-80b4-00c04fd430c8"))
      (lit "x.eyJzdWIiOiI2YmE3YjgxMCs5ZGFkLTExZDEtODBiNC0wMGMwNGZkNDMwYzgifQ.y")
      (lit "\x7b\"sub\":\"6ba7b810+9dad-11d1-80b4-00c04fd430c8\"\x7d")
      (lit "invalid UUID format") (by decide) (by rfl) (by rfl)⟩

/-- Claim C13: on a context that has no value under `assertionTokenClaimsKey`,
`GetTokenClaims` returns nil, and on one that has no value under `jwtToken`,
`GetJWTFromContext` returns the empty string. The background context is such a context, and so
is every context built from one by attaching values under the keys of other packages. Both
accessors are total: the type assertions are of the two-result form, which does not panic. -/
theorem accessors_absent (ctx : Context) :
    (ctx.Value .assertionTokenClaimsKey = none → GetTokenClaims ctx = none) ∧
      (ctx.Value .jwtToken = none → GetJWTFromContext ctx = lit "") ∧
      GetTokenClaims .Background = none ∧
      GetJWTFromContext .Background = lit "" ∧
      ∀ (id : Nat) (val : Value),
        GetTokenClaims (.WithValue ctx (.other id) val) = GetTokenClaims ctx ∧
        GetJWTFromContext (.WithValue ctx (.other id) val) = GetJWTFromContext ctx := by
  refine ⟨?_, ?_, rfl, rfl, ?_⟩
  · intro h
    simp [GetTokenClaims, h]
  · intro h
    simp [GetJWTFromContext, h]
  · intro id val
    simp [GetTokenClaims, GetJWTFromContext, Context.Value]

theorem accessors_absent_witness :
    GetTokenClaims (.WithValue .Background (.other 7) (.string (lit "trace-id"))) = none ∧
    GetJWTFromContext (.WithValue .Background (.other 7) (.string (lit "trace-id"))) =
      lit "" :=
  ⟨(accessors_absent (.WithValue .Background (.other 7) (.string (lit "trace-id")))).1
      (by decide),
   (accessors_absent (.WithValue .Background (.other 7) (.string (lit "trace-id")))).2.1
      (by decide)⟩

/-- Claim C14: for every payload segment `s` made of letters and digits only whose length is 2
or 3 modulo 4, `base64UrlDecode` succeeds on `s`, and what it returns on `s` is what it returns
on `s` followed by the `=` that bring its length to a multiple of 4. -/
theorem base64UrlDecode_padding_interchangeable (s : GoString)
    (halnum : ∀ c ∈ s, (65 ≤ c ∧ c ≤ 90) ∨ (97 ≤ c ∧ c ≤ 122) ∨ (48 ≤ c ∧ c ≤ 57))
    (hlen : s.length % 4 = 2 ∨ s.length % 4 = 3) :
    (∃ out, extractClaimsFromJWT.base64UrlDecode s = .ok out) ∧
      extractClaimsFromJWT.base64UrlDecode s =
        extractClaimsFromJWT.base64UrlDecode
          (s ++ strings.Repeat (lit "=") (4 - s.length % 4)) := by
  have hpos : s.length % 4 > 0 := by omega
  have hzero : ¬ (s ++ strings.Repeat [61] (4 - s.length % 4)).length % 4 > 0 := by
    rw [List.length_append, length_Repeat_byte]
    omega
  have hsame : extractClaimsFromJWT.base64UrlDecode s =
      extractClaimsFromJWT.base64UrlDecode
        (s ++ strings.Repeat (lit "=") (4 - s.length % 4)) := by
    rw [base64UrlDecode_eq, base64UrlDecode_eq, lit_eq_sign, if_pos hpos, if_neg hzero]
  refine ⟨?_, hsame⟩
  rw [base64UrlDecode_eq, if_pos hpos]
  have hid : (s ++ strings.Repeat [61] (4 - s.length % 4)).map
      (fun c => if c = 95 then 47 else if c = 45 then 43 else c) =
      s ++ strings.Repeat [61] (4 - s.length % 4) := by
    conv_rhs => rw [← List.map_id (s ++ strings.Repeat [61] (4 - s.length % 4))]
    apply List.map_congr_left
    intro x hx
    have hx2 : x ≠ 95 ∧ x ≠ 45 := by
      rcases List.mem_append.1 hx with hx | hx
      · have ha := halnum x hx
        omega
      · have hr : strings.Repeat [61] (4 - s.length % 4) = [61, 61] ∨
            strings.Repeat [61] (4 - s.length % 4) = [61] := by
          rcases hlen with h | h
          · left; rw [h]; rfl
          · right; rw [h]; rfl
        rcases hr with hr | hr <;> rw [hr] at hx <;> simp at hx <;> omega
    simp [hx2.1, hx2.2]
  rw [hid]
  exact URLEncoding_DecodeString_ok s halnum hlen

theorem base64UrlDecode_padding_interchangeable_witness :
    extractClaimsFromJWT.base64UrlDecode (lit "eyJleHAiOjB9fQ") =
      extractClaimsFromJWT.base64UrlDecode
        (lit "eyJleHAiOjB9fQ" ++ strings.Repeat (lit "=") (4 - (lit "eyJleHAiOjB9fQ").length % 4)) ∧
    ∃ out, extractClaimsFromJWT.base64UrlDecode (lit "e30") = .ok out :=
  ⟨(base64UrlDecode_padding_interchangeable (lit "eyJleHAiOjB9fQ") (by decide)
      (by decide)).2,
   (base64UrlDecode_padding_interchangeable (lit "e30") (by decide) (by decide)).1⟩

/-- Claim C15: `base64UrlDecode` rejects every payload segment that has a `-`, a `_`, a `+` or a
`/` in it: the first two are rewritten to the last two, which are not in the alphabet of
`URLEncoding`. So for every token of three segments whose payload segment has one of these four
bytes in it, the decoder fails with `invalid jwt, failed to decode payload: ` followed by the
text of a `CorruptInputError`, whatever `json.Unmarshal` does. -/
theorem base64UrlDecode_rejects_url_and_std_bytes
    (jsonUnmarshal : List Nat → Except GoString TokenClaims) (data : GoString)
    (hc : 45 ∈ data ∨ 95 ∈ data ∨ 43 ∈ data ∨ 47 ∈ data) :
    (∃ n, extractClaimsFromJWT.base64UrlDecode data = .error (base64.CorruptInputError n)) ∧
      ∀ tokenString : GoString,
        (strings.Split tokenString (lit ".")).length = 3 →
        (strings.Split tokenString (lit ".")).getD 1 [] = data →
        ∃ n, extractClaimsFromJWT jsonUnmarshal tokenString =
          .error (lit "invalid jwt, failed to decode payload: " ++
            base64.CorruptInputError n) := by
  have hmem : ∀ x ∈ data, x ∈
      (if data.length % 4 > 0 then data ++ strings.Repeat [61] (4 - data.length % 4)
        else data) := by
    intro x hx
    split
    · exact List.mem_append_left _ hx
    · exact hx
  have hbad : 43 ∈ (if data.length % 4 > 0 then
        data ++ strings.Repeat [61] (4 - data.length % 4) else data).map
        (fun c => if c = 95 then 47 else if c = 45 then 43 else c) ∨
      47 ∈ (if data.length % 4 > 0 then
        data ++ strings.Repeat [61] (4 - data.length % 4) else data).map
        (fun c => if c = 95 then 47 else if c = 45 then 43 else c) := by
    rcases hc with h | h | h | h
    · exact Or.inl (List.mem_map.2 ⟨45, hmem 45 h, by decide⟩)
    · exact Or.inr (List.mem_map.2 ⟨95, hmem 95 h, by decide⟩)
    · exact Or.inl (List.mem_map.2 ⟨43, hmem 43 h, by decide⟩)
    · exact Or.inr (List.mem_map.2 ⟨47, hmem 47 h, by decide⟩)
  have herr : ∃ n, extractClaimsFromJWT.base64UrlDecode data =
      .error (base64.CorruptInputError n) := by
    rw [base64UrlDecode_eq]
    exact URLEncoding_DecodeString_error _ hbad
  refine ⟨herr, ?_⟩
  intro tokenString h3 hp
  obtain ⟨n, hn⟩ := herr
  refine ⟨n, ?_⟩
  simp only [extractClaimsFromJWT, h3, hp, hn]
  simp

theorem base64UrlDecode_rejects_url_and_std_bytes_witness :
    (∃ n, extractClaimsFromJWT.base64UrlDecode (lit "eyJzY29wZSI6ImE_Yj4ifQ") =
      .error (base64.CorruptInputError n)) ∧
    ∃ n, extractClaimsFromJWT exampleUnmarshal
        (lit "eyJhbGciOiJub25lIn0.eyJzY29wZSI6ImE-Yj9jIn0.c2ln") =
      .error (lit "invalid jwt, failed to decode payload: " ++ base64.CorruptInputError n) :=
  ⟨(base64UrlDecode_rejects_url_and_std_bytes exampleUnmarshal
      (lit "eyJzY29wZSI6ImE_Yj4ifQ") (by decide)).1,
   (base64UrlDecode_rejects_url_and_std_bytes exampleUnmarshal
      (lit "eyJzY29wZSI6ImE-Yj9jIn0") (by decide)).2
      (lit "eyJhbGciOiJub25lIn0.eyJzY29wZSI6ImE-Yj9jIn0.c2ln") (by decide) (by decide)⟩

/-- Claim C16: on a context that carries a scope string, `HasAllScopes` is true exactly when the
list that `MatchedScopes` returns is `required` itself, element for element; so for a non-empty
`required`, `HasAllScopes` being true makes the boolean of `MatchedScopes` true. -/
theorem HasAllScopes_iff_MatchedScopes_all (ctx : Context) (required : List GoString)
    (s : GoString) (hs : ctx.Value .scopesKey = some (.string s)) :
    (HasAllScopes ctx required = true ↔ (MatchedScopes ctx required).1 = required) ∧
      (required ≠ [] → HasAllScopes ctx required = true →
        (MatchedScopes ctx required).2 = true) := by
  have hall : HasAllScopes ctx required = true ↔ ∀ x ∈ required, x <:+: s := by
    simp only [HasAllScopes, hs]
    exact HasAllScopes_loop_iff s required
  have hm : (MatchedScopes ctx required).1 =
      required.filter (fun x => decide (x <:+: s)) := by
    simp only [MatchedScopes, hs, MatchedScopes_loop_eq, List.nil_append]
  have hb : (MatchedScopes ctx required).2 = true ↔ (MatchedScopes ctx required).1 ≠ [] := by
    simp only [MatchedScopes, hs, MatchedScopes_loop_eq, List.nil_append]
    simp [List.length_pos]
  have hiff : HasAllScopes ctx required = true ↔ (MatchedScopes ctx required).1 = required := by
    rw [hall, hm, List.filter_eq_self]
    simp
  refine ⟨hiff, ?_⟩
  intro hne hh
  rw [hb, hiff.1 hh]
  exact hne

theorem HasAllScopes_iff_MatchedScopes_all_witness :
    (MatchedScopes (.WithValue .Background .scopesKey (.string (lit "read write")))
        [lit "write", lit "read"]).1 = [lit "write", lit "read"] ∧
    (MatchedScopes (.WithValue .Background .scopesKey (.string (lit "read write")))
        [lit "write", lit "read"]).2 = true ∧
    ¬ HasAllScopes (.WithValue .Background .scopesKey (.string (lit "read write")))
        [lit "read", lit "delete"] = true :=
  ⟨(HasAllScopes_iff_MatchedScopes_all
      (.WithValue .Background .scopesKey (.string (lit "read write")))
      [lit "write", lit "read"] (lit "read write") rfl).1.1 (by decide),
   (HasAllScopes_iff_MatchedScopes_all
      (.WithValue .Background .scopesKey (.string (lit "read write")))
      [lit "write", lit "read"] (lit "read write") rfl).2 (by decide) (by decide),
   fun h => absurd ((HasAllScopes_iff_MatchedScopes_all
      (.WithValue .Background .scopesKey (.string (lit "read write")))
      [lit "read", lit "delete"] (lit "read write") rfl).1.1 h) (by decide)⟩

/-- Claim C17: whenever the handler calls the wrapped handler, the raw token stored in the
context it hands over has exactly two `.` bytes and is therefore not empty: on such a context
`GetJWTFromContext` returns the stored token and never the empty string, so a context on which
it returns the empty string is not one that the middleware handed over. -/
theorem stored_token_has_two_dots
    (jsonUnmarshal : List Nat → Except GoString TokenClaims) (canonical : GoString → GoString)
    (header : GoString) (r r2 : Request)
    (h : JWTAuthMiddleware jsonUnmarshal canonical header r = .ServeHTTP r2) :
    r2.Context.Value .jwtToken = some (.string (GetJWTFromContext r2.Context)) ∧
      (GetJWTFromContext r2.Context).count 46 = 2 ∧
      GetJWTFromContext r2.Context ≠ lit "" ∧
      ∀ ctx : Context, GetJWTFromContext ctx = lit "" → ctx ≠ r2.Context := by
  obtain ⟨claims, hok, hstored⟩ :=
    extractClaimsFromJWT_ok_of_ServeHTTP jsonUnmarshal canonical header r r2 h
  have h3 := length_Split_of_ok jsonUnmarshal _ claims hok
  rw [length_Split_dot] at h3
  have hcount : (GetJWTFromContext r2.Context).count 46 = 2 := by omega
  have hne : GetJWTFromContext r2.Context ≠ lit "" := by
    intro he
    rw [he] at hcount
    revert hcount
    decide
  refine ⟨hstored, hcount, hne, ?_⟩
  intro ctx hctx heq
  apply hne
  rw [← heq, hctx]

theorem stored_token_has_two_dots_witness :
    (GetJWTFromContext exampleContext).count 46 = 2 ∧
    GetJWTFromContext exampleContext ≠ lit "" :=
  ⟨(stored_token_has_two_dots exampleUnmarshal id (lit "Authorization")
      (exampleRequest (lit "Bearer " ++ exampleToken))
      ⟨[(lit "Authorization", [lit "Bearer " ++ exampleToken])], exampleContext⟩
      (by rfl)).2.1,
   (stored_token_has_two_dots exampleUnmarshal id (lit "Authorization")
      (exampleRequest (lit "Bearer " ++ exampleToken))
      ⟨[(lit "Authorization", [lit "Bearer " ++ exampleToken])], exampleContext⟩
      (by rfl)).2.2.1⟩

end jwtassertion
